import Mathlib

/-!
Shallow embedding of the LoansBot core (parser kernel, money model, ledger
repayment, summons, permission cache) together with theorems settling the
frozen specification claims.  Every definition is translated from the Python
source under src/; definitions whose name ends in Spec or Claim follow the
wording of the specification instead and are compared with the source-derived
definitions.
-/

namespace LoansBot

/-! ## Basic Python-semantics helpers -/

/-- ASCII lowercasing of one character, modelling Python str.lower on the
ASCII usernames this system handles. -/
def pyLowerChar (c : Char) : Char :=
  if 'A' ≤ c ∧ c ≤ 'Z' then Char.ofNat (c.toNat + 32) else c

/-- Python str.lower (ASCII fragment). -/
def pyLower (s : String) : String :=
  String.mk (s.data.map pyLowerChar)

/-- Python int(math.ceil(q)) for a rational q. -/
def pyCeil (q : ℚ) : ℤ := Int.ceil q

/-- Python int(q): truncation toward zero. -/
def pyTrunc (q : ℚ) : ℤ :=
  if q < 0 then Int.ceil q else Int.floor q

/-- Python whitespace class backslash-s (ASCII fragment). -/
def pyIsSpace (c : Char) : Bool :=
  c = ' ' ∨ c = '\t' ∨ c = '\n' ∨ c = '\x0d' ∨ c = '\x0b' ∨ c = '\x0c'

/-- Python word-character class backslash-w (ASCII fragment): letters, digits
and underscore.  Note that the hyphen is not a word character. -/
def pyIsWord (c : Char) : Bool :=
  ('a' ≤ c ∧ c ≤ 'z') ∨ ('A' ≤ c ∧ c ≤ 'Z') ∨ ('0' ≤ c ∧ c ≤ '9') ∨ c = '_'

/-- Decimal digit test. -/
def isDigitCh (c : Char) : Bool :=
  '0' ≤ c ∧ c ≤ '9'

/-- Numeric value of a decimal digit character. -/
def digitVal (c : Char) : ℕ := c.toNat - '0'.toNat

/-- Python int(s) on a nonempty string of decimal digits. -/
def digitsToNat (l : List Char) : ℕ :=
  l.foldl (fun acc c => acc * 10 + digitVal c) 0

/-! ## Money model (src/money.py) -/

/-- The Money DTO from src/money.py.  The minor amount is an integer (Python
ints are unbounded; repayment amounts may be compared against zero, so we keep
the signed type). -/
structure Money where
  minor : ℤ
  currency : String
  exp : ℕ
  symbol : Option String
  symbol_on_left : Bool
deriving DecidableEq, Repr

/-- ISO_CODES_TO_EXP from src/money.py, in source order. -/
def ISO_CODES_TO_EXP : List (String × ℕ) :=
  [("AUD", 2), ("GBP", 2), ("EUR", 2), ("CAD", 2), ("JPY", 0), ("MXN", 2), ("USD", 2)]

/-- Lookup in ISO_CODES_TO_EXP; none models a Python KeyError / failed
membership test. -/
def isoExpOf (code : String) : Option ℕ :=
  (ISO_CODES_TO_EXP.find? (fun p => p.1 = code)).map Prod.snd

/-- CURRENCY_SYMBOLS from src/money.py. -/
def CURRENCY_SYMBOLS : List (Char × String) :=
  [('$', "USD"), ('€', "EUR"), ('£', "GBP")]

/-- Symbol-to-ISO lookup. -/
def symbolIso (c : Char) : Option String :=
  (CURRENCY_SYMBOLS.find? (fun p => p.1 = c)).map Prod.snd

/-! ## Currency conversion (src/convert.py)

The memcached / currencylayer machinery is abstracted into a pure oracle
`rates src tgt` giving the cached dollar_rate for a pair of distinct supported
codes; convert then applies the exponent adjustment exactly as the source
does.  Unsupported codes raise ValueError in the source, modelled as none. -/

/-- convert(itgs, source, target) from src/convert.py with the cache content
abstracted as an oracle. -/
def convertRate (rates : String → String → ℚ) (source target : String) : Option ℚ :=
  match isoExpOf source, isoExpOf target with
  | some es, some et =>
      some (if source = target then 1
            else rates source target * (10 : ℚ) ^ ((et : ℤ) - (es : ℤ)))
  | _, _ => none

/-! ## Permission manager (src/perms/manager.py) -/

/-- Configuration constants of src/perms/manager.py (environment-derived). -/
structure PermConfig where
  combined_karma_min : ℤ
  comment_karma_min : ℤ
  account_age_seconds_min : ℚ
  ignored_users : List String
deriving Repr

/-- A cached permission snapshot document, the body written by fetch_info.
comment_karma is optional so that a legacy-schema document (missing the
field) can be represented. -/
structure PermDoc where
  karma : ℤ
  comment_karma : Option ℤ
  link_karma : ℤ
  account_created_at : ℚ
  borrow_approved_submitter : Bool
  borrow_moderator : Bool
  borrow_banned : Bool
  checked_karma_at : ℚ
deriving DecidableEq, Repr

/-- The keyed document store holding the perms collection. -/
abbrev PermStore := List (String × PermDoc)

/-- Read a document by key. -/
def kvsRead (kvs : PermStore) (key : String) : Option PermDoc :=
  (kvs.find? (fun p => p.1 = key)).map Prod.snd

/-- create_or_overwrite of a document at a key. -/
def kvsWrite (kvs : PermStore) (key : String) (doc : PermDoc) : PermStore :=
  (key, doc) :: kvs.filter (fun p => ¬ p.1 = key)

/-- force_delete_doc of a key. -/
def kvsDelete (kvs : PermStore) (key : String) : PermStore :=
  kvs.filter (fun p => ¬ p.1 = key)

/-- The responses the reddit proxy would give for the four requests fetch_info
makes on a cache miss. -/
structure RedditOracle where
  show_user_is_copy : Bool
  cumulative_karma : ℤ
  comment_karma : ℤ
  link_karma : ℤ
  created_at_utc_seconds : ℚ
  approved : Bool
  moderator : Bool
  banned : Bool
deriving Repr

/-- The cache-hit decision of fetch_info (src/perms/manager.py lines 82-100):
reads the snapshot under the lowercased username and applies the legacy-schema
and stale-karma miss rules. -/
def fetch_info_cached (kvs : PermStore) (now : ℚ) (kmin : ℤ)
    (username : String) : Option PermDoc :=
  let cache0 := kvsRead kvs (pyLower username)
  let cache1 := match cache0 with
    | some d => if d.comment_karma.isNone then none else some d
    | none => none
  match cache1 with
  | some d =>
      if now - d.checked_karma_at > 60 * 60 * 24 ∧
          d.karma < kmin ∧
          (d.karma : ℚ) + (now - d.checked_karma_at) * 100 / (60 * 60 * 24) ≥ (kmin : ℚ)
      then none else some d
  | none => none

/-- fetch_info from src/perms/manager.py.  Reads the cached snapshot under the
lowercased username, applies the legacy-schema and stale-karma miss rules, and
on a miss either returns none (account does not exist) or writes a fresh
snapshot under the lowercased username.  Returns the observed info and the
updated store. -/
def fetch_info (kvs : PermStore) (now : ℚ) (kmin : ℤ) (oracle : RedditOracle)
    (username : String) : Option PermDoc × PermStore :=
  match fetch_info_cached kvs now kmin username with
  | some d => (some d, kvs)
  | none =>
      if oracle.show_user_is_copy then
        let newdoc : PermDoc :=
          { karma := oracle.cumulative_karma
            comment_karma := some oracle.comment_karma
            link_karma := oracle.link_karma
            account_created_at := oracle.created_at_utc_seconds
            borrow_approved_submitter := oracle.approved
            borrow_moderator := oracle.moderator
            borrow_banned := oracle.banned
            checked_karma_at := now }
        (some newdoc, kvsWrite kvs (pyLower username) newdoc)
      else (none, kvs)

/-- flush_cache from src/perms/manager.py: deletes the document keyed by the
username exactly as given (no lowercasing). -/
def flush_cache (kvs : PermStore) (username : String) : PermStore :=
  kvsDelete kvs username

/-- can_interact from src/perms/manager.py, with the fetch_info result
supplied as `info` and the clock as `now`. -/
def can_interact (cfg : PermConfig) (username : String) (info : Option PermDoc)
    (now : ℚ) : Bool :=
  if pyLower username ∈ cfg.ignored_users.map pyLower then false
  else
    match info with
    | none => false
    | some i =>
        !i.borrow_banned &&
          ((i.borrow_moderator || i.borrow_approved_submitter) ||
            (decide (i.karma > cfg.combined_karma_min) &&
              decide ((i.comment_karma.getD 0) > cfg.comment_karma_min) &&
              decide (now - i.account_created_at > cfg.account_age_seconds_min)))

/-- Spec wording of can_interact (spec section 4.5): false for ignored users
and nonexistent accounts, else true iff not banned and (moderator or approved
or all three threshold tests pass strictly). -/
def can_interact_spec (cfg : PermConfig) (username : String) (info : Option PermDoc)
    (now : ℚ) : Bool :=
  if pyLower username ∈ cfg.ignored_users.map pyLower then false
  else
    match info with
    | none => false
    | some i =>
        decide (i.borrow_banned = false ∧
          (i.borrow_moderator = true ∨ i.borrow_approved_submitter = true ∨
            (i.karma > cfg.combined_karma_min ∧
              i.comment_karma.getD 0 > cfg.comment_karma_min ∧
              now - i.account_created_at > cfg.account_age_seconds_min)))

/-! ## Parser kernel (src/parsing/tokens.py, src/parsing/parser.py)

Text is modelled as a list of characters.  A token is the single capability
consume(text, offset); the source classes RegexToken, FallbackToken and
TransformedToken are duck-typed over this interface, so a token here is just
its consume function. -/

/-- A parsing token: consume(text, offset) returns (consumed length, value) or
none. -/
structure Tok (α : Type) where
  consume : List Char → ℕ → Option (ℕ × α)

/-- FallbackToken: first successful child wins. -/
def fallbackConsume {α : Type} (children : List (Tok α)) (text : List Char)
    (off : ℕ) : Option (ℕ × α) :=
  match children with
  | [] => none
  | c :: rest =>
      match c.consume text off with
      | some r => some r
      | none => fallbackConsume rest text off

/-- FallbackToken from src/parsing/tokens.py. -/
def fallbackTok {α : Type} (children : List (Tok α)) : Tok α :=
  ⟨fallbackConsume children⟩

/-- TransformedToken from src/parsing/tokens.py: a transform returning none is
treated as a failure to match. -/
def transformTok {α β : Type} (child : Tok α) (f : α → Option β) : Tok β :=
  ⟨fun text off =>
    match child.consume text off with
    | none => none
    | some (n, v) =>
        match f v with
        | none => none
        | some w => some (n, w)⟩

/-- A parser: an anchor list plus ordered (token, optional) pairs. -/
structure ParserDef (α : Type) where
  anchors : List (List Char)
  tokens : List (Tok α × Bool)

/-- Does pat occur in text exactly at its start? -/
def leadsWith : List Char → List Char → Bool
  | _, [] => true
  | [], _ :: _ => false
  | c :: t, d :: p => c = d && leadsWith t p

/-- Worker for pyStrFind, with fuel bounding the scanned positions. -/
def pyStrFindGo (text pat : List Char) : ℕ → ℕ → Option ℕ
  | 0, _ => none
  | fuel + 1, i =>
      if leadsWith (text.drop i) pat then some i else pyStrFindGo text pat fuel (i + 1)

/-- Python text.find(pat, start): the smallest index at or after start where
pat occurs, none when there is no occurrence (or start exceeds the length). -/
def pyStrFind (text pat : List Char) (start : ℕ) : Option ℕ :=
  pyStrFindGo text pat (text.length + 1 - start) start

/-- The anchor-selection loop of Parser.parse (src/parsing/parser.py lines
63-73): fold over the anchors keeping the first anchor with the strictly
smallest occurrence index. -/
def bestAnchorGo (text : List Char) (searchFrom : ℕ) :
    List (List Char) → Option (List Char × ℕ) → Option (List Char × ℕ)
  | [], best => best
  | anch :: rest, best =>
      let best' :=
        match pyStrFind text anch searchFrom with
        | none => best
        | some idx =>
            match best with
            | none => some (anch, idx)
            | some (b, bidx) => if idx < bidx then some (anch, idx) else some (b, bidx)
      bestAnchorGo text searchFrom rest best'

/-- The best (earliest-occurring) anchor at or after searchFrom, as computed
by Parser.parse. -/
def bestAnchor (anchors : List (List Char)) (text : List Char) (searchFrom : ℕ) :
    Option (List Char × ℕ) :=
  bestAnchorGo text searchFrom anchors none

/-- The token loop of Parser.parse (src/parsing/parser.py lines 81-98): note
the guard token_index < len(text) — at or past the end of the text a token is
failed without consume being called. -/
def runTokens {α : Type} : List (Tok α × Bool) → List Char → ℕ → Option (List (Option α))
  | [], _, _ => some []
  | (tok, opt) :: rest, text, tokenIndex =>
      let res := if tokenIndex < text.length then tok.consume text tokenIndex else none
      match res with
      | none =>
          if opt then (runTokens rest text tokenIndex).map (fun l => none :: l)
          else none
      | some (n, v) => (runTokens rest text (tokenIndex + n)).map (fun l => some v :: l)

/-- The while-loop of Parser.parse, with fuel bounding the number of anchor
occurrences tried (each iteration moves the search point strictly forward, so
text.length + 2 iterations always suffice). -/
def parseAux {α : Type} (p : ParserDef α) (text : List Char) :
    ℕ → ℕ → Option (List (Option α))
  | 0, _ => none
  | fuel + 1, searchFrom =>
      match bestAnchor p.anchors text searchFrom with
      | none => none
      | some (anch, idx) =>
          match runTokens p.tokens text (idx + anch.length) with
          | some vals => some vals
          | none => parseAux p text fuel (idx + 1)

/-- Parser.parse from src/parsing/parser.py. -/
def parse {α : Type} (p : ParserDef α) (text : List Char) : Option (List (Option α)) :=
  parseAux p text (text.length + 2) 0

/-! ### Claim-side parser (C6)

The claim describes parse as: find the earliest occurrence of any anchor
(none → not-found); attempt the tokens in order after it (failed optional →
record null without advancing, failed required → abandon and resume the
search strictly after the anchor's start); on success return the value list.
The definitions below follow those words; the earliest anchor is computed as
the argmin over per-anchor first occurrences with ties resolved to the
earlier anchor in the list. -/

/-- Claim wording: the earliest occurrence of any anchor at or after s. -/
def earliestAnchorSpec (text : List Char) (s : ℕ) :
    List (List Char) → Option (List Char × ℕ)
  | [] => none
  | a :: rest =>
      match pyStrFind text a s, earliestAnchorSpec text s rest with
      | none, r => r
      | some i, none => some (a, i)
      | some i, some (b, j) => if i ≤ j then some (a, i) else some (b, j)

/-- Claim wording of the token loop: every token is attempted in order via
its consume capability (no end-of-text guard). -/
def runTokensSpec {α : Type} : List (Tok α × Bool) → List Char → ℕ → Option (List (Option α))
  | [], _, _ => some []
  | (tok, opt) :: rest, text, tokenIndex =>
      match tok.consume text tokenIndex with
      | none =>
          if opt then (runTokensSpec rest text tokenIndex).map (fun l => none :: l)
          else none
      | some (n, v) => (runTokensSpec rest text (tokenIndex + n)).map (fun l => some v :: l)

/-- Claim wording of the parse loop, with the unguarded token loop. -/
def parseSpecAux {α : Type} (p : ParserDef α) (text : List Char) :
    ℕ → ℕ → Option (List (Option α))
  | 0, _ => none
  | fuel + 1, searchFrom =>
      match earliestAnchorSpec text searchFrom p.anchors with
      | none => none
      | some (anch, idx) =>
          match runTokensSpec p.tokens text (idx + anch.length) with
          | some vals => some vals
          | none => parseSpecAux p text fuel (idx + 1)

/-- The parse behavior exactly as the claim C6 words it. -/
def parseSpecClaim {α : Type} (p : ParserDef α) (text : List Char) :
    Option (List (Option α)) :=
  parseSpecAux p text (text.length + 2) 0

/-- The amended token loop: identical to the claim's except that a token
whose offset has reached the end of the text is treated as failed without
being attempted. -/
def runTokensSpecAmended {α : Type} :
    List (Tok α × Bool) → List Char → ℕ → Option (List (Option α))
  | [], _, _ => some []
  | (tok, opt) :: rest, text, tokenIndex =>
      let res := if tokenIndex < text.length then tok.consume text tokenIndex else none
      match res with
      | none =>
          if opt then (runTokensSpecAmended rest text tokenIndex).map (fun l => none :: l)
          else none
      | some (n, v) =>
          (runTokensSpecAmended rest text (tokenIndex + n)).map (fun l => some v :: l)

/-- The parse loop per the amended claim. -/
def parseSpecAmendedAux {α : Type} (p : ParserDef α) (text : List Char) :
    ℕ → ℕ → Option (List (Option α))
  | 0, _ => none
  | fuel + 1, searchFrom =>
      match earliestAnchorSpec text searchFrom p.anchors with
      | none => none
      | some (anch, idx) =>
          match runTokensSpecAmended p.tokens text (idx + anch.length) with
          | some vals => some vals
          | none => parseSpecAmendedAux p text fuel (idx + 1)

/-- The parse behavior per the amended C6 claim. -/
def parseSpecAmended {α : Type} (p : ParserDef α) (text : List Char) :
    Option (List (Option α)) :=
  parseSpecAmendedAux p text (text.length + 2) 0

/-- Merge an already-found best anchor with the best of the remaining
anchors, preferring the earlier-listed anchor on equal indexes. -/
def combineBest : Option (List Char × ℕ) → Option (List Char × ℕ) → Option (List Char × ℕ)
  | none, r => r
  | some b, none => some b
  | some (b, bi), some (c, ci) => if ci < bi then some (c, ci) else some (b, bi)

/-! ## Ledger model (tables touched by src/utils/paid_utils.py and
src/summons/loan.py) -/

/-- A currencies row. -/
structure CurrencyRow where
  code : String
  symbol : String
  symbol_on_left : Bool
  exponent : ℕ
deriving DecidableEq, Repr

/-- A moneys row. -/
structure MoneyRow where
  currency_id : ℕ
  amount : ℤ
  amount_usd_cents : ℤ
deriving DecidableEq, Repr

/-- A loans row. -/
structure LoanRow where
  lender_id : ℕ
  borrower_id : ℕ
  principal_id : ℕ
  principal_repayment_id : ℕ
  created_at : ℤ
  repaid_at : Option ℤ
  unpaid_at : Option ℤ
  deleted_at : Option ℤ
deriving DecidableEq, Repr

/-- An event published on the events topic exchange. -/
inductive PubEvent where
  | loansPaid (loan_id : ℕ) (lender_id : ℕ) (lender_username : String)
      (borrower_id : ℕ) (borrower_username : String) (amount : Money)
      (was_unpaid : Bool)
deriving DecidableEq, Repr

/-- The database state the ledger operations read and write, with the broker
publishes recorded alongside.  Row ids are allocated from next_id. -/
structure LedgerState where
  users : List (ℕ × String)
  currencies : List (ℕ × CurrencyRow)
  moneys : List (ℕ × MoneyRow)
  loans : List (ℕ × LoanRow)
  loan_repayment_events : List (ℕ × ℕ × ℕ)
  loan_unpaid_events : List (ℕ × Bool)
  published : List PubEvent
  next_id : ℕ
  now : ℤ
deriving DecidableEq, Repr

/-- Row lookup by primary key (tables keep unique ids; rows are appended with
fresh ids from next_id). -/
def lookupRow {α : Type} (t : List (ℕ × α)) (i : ℕ) : Option α :=
  (t.find? (fun p => p.1 = i)).map Prod.snd

/-- The joined row apply_repayment fetches (src/utils/paid_utils.py lines
72-118). -/
structure FetchedLoan where
  lender_user_id : ℕ
  lender_username : String
  borrower_user_id : ℕ
  borrower_username : String
  loan_currency_id : ℕ
  loan_currency : String
  loan_currency_exp : ℕ
  loan_currency_symbol : String
  loan_currency_symbol_on_left : Bool
  principal_amount : ℤ
  principal_usd_cents : ℤ
  principal_repayment_id : ℕ
  principal_repayment_amount : ℤ
  unpaid_at : Option ℤ
deriving DecidableEq, Repr

/-- The SELECT with its five inner joins: the row exists only when the loan
and every joined row exist. -/
def fetchLoanJoin (st : LedgerState) (loan_id : ℕ) : Option FetchedLoan := do
  let loan ← lookupRow st.loans loan_id
  let principal ← lookupRow st.moneys loan.principal_id
  let pcur ← lookupRow st.currencies principal.currency_id
  let prepay ← lookupRow st.moneys loan.principal_repayment_id
  let lender ← lookupRow st.users loan.lender_id
  let borrower ← lookupRow st.users loan.borrower_id
  pure
    { lender_user_id := loan.lender_id
      lender_username := lender
      borrower_user_id := loan.borrower_id
      borrower_username := borrower
      loan_currency_id := principal.currency_id
      loan_currency := pcur.code
      loan_currency_exp := pcur.exponent
      loan_currency_symbol := pcur.symbol
      loan_currency_symbol_on_left := pcur.symbol_on_left
      principal_amount := principal.amount
      principal_usd_cents := principal.amount_usd_cents
      principal_repayment_id := loan.principal_repayment_id
      principal_repayment_amount := prepay.amount
      unpaid_at := loan.unpaid_at }

/-- find_or_create_or_find on the currencies table, as find_or_create_money
performs it (src/utils/money_utils.py lines 22-49). -/
def find_or_create_currency (st : LedgerState) (code symbol : String)
    (symbol_on_left : Bool) (exponent : ℕ) : ℕ × LedgerState :=
  match st.currencies.find? (fun p => p.2.code = code) with
  | some p => (p.1, st)
  | none =>
      (st.next_id,
        { st with
          currencies := st.currencies ++ [(st.next_id, ⟨code, symbol, symbol_on_left, exponent⟩)]
          next_id := st.next_id + 1 })

/-- find_or_create_money from src/utils/money_utils.py: find or create the
currency row (note the Python `money.exp or 2` turning exponent 0 into 2 on
creation), then find a moneys row matching all three fields or insert one. -/
def find_or_create_money (st : LedgerState) (m : Money) (amount_usd_cents : ℤ) :
    ℕ × LedgerState :=
  match find_or_create_currency st m.currency
      (m.symbol.getD (" " ++ m.currency))
      (if m.symbol.isSome then m.symbol_on_left else false)
      (if m.exp = 0 then 2 else m.exp) with
  | (currency_id, st1) =>
      match st1.moneys.find? (fun p =>
          p.2.currency_id = currency_id ∧ p.2.amount = m.minor ∧
            p.2.amount_usd_cents = amount_usd_cents) with
      | some p => (p.1, st1)
      | none =>
          (st1.next_id,
            { st1 with
              moneys := st1.moneys ++ [(st1.next_id, ⟨currency_id, m.minor, amount_usd_cents⟩)]
              next_id := st1.next_id + 1 })

/-- INSERT INTO loan_repayment_events RETURNING id. -/
def insertRepaymentEvent (st : LedgerState) (loan_id money_id : ℕ) : ℕ × LedgerState :=
  (st.next_id,
    { st with
      loan_repayment_events := st.loan_repayment_events ++ [(st.next_id, loan_id, money_id)]
      next_id := st.next_id + 1 })

/-- UPDATE loans SET ... WHERE id = loan_id. -/
def updateLoanRow (st : LedgerState) (loan_id : ℕ) (f : LoanRow → LoanRow) : LedgerState :=
  { st with
    loans := st.loans.map (fun p => if p.1 = loan_id then (p.1, f p.2) else p) }

/-- The write pipeline of apply_repayment (src/utils/paid_utils.py lines
158-244), factored out of apply_repayment in source order: find or create the
applied money row, insert the repayment event, find or create the new
principal-repaid money row, repoint the loan, and on full repayment set
repaid_at, clear unpaid_at, append the clearing unpaid-event when one was
set, and publish loans.paid.  Returns the repayment event id and the state. -/
def applyRepaymentWrites (st : LedgerState) (loan_id : ℕ) (r : FetchedLoan)
    (amount applied : Money) (applied_usd_cents new_amt new_usd : ℤ) :
    ℕ × LedgerState :=
  let fc1 := find_or_create_money st applied applied_usd_cents
  let ev := insertRepaymentEvent fc1.2 loan_id fc1.1
  let fc2 := find_or_create_money ev.2
    ⟨new_amt, r.loan_currency, r.loan_currency_exp,
      some r.loan_currency_symbol, r.loan_currency_symbol_on_left⟩ new_usd
  let st4 := updateLoanRow fc2.2 loan_id
    (fun lr => { lr with principal_repayment_id := fc2.1 })
  let st5 :=
    if new_amt = r.principal_amount then
      let st5a := updateLoanRow st4 loan_id
        (fun lr => { lr with repaid_at := some st4.now, unpaid_at := none })
      let st5b :=
        if r.unpaid_at.isSome then
          { st5a with loan_unpaid_events := st5a.loan_unpaid_events ++ [(loan_id, false)] }
        else st5a
      { st5b with
        published := st5b.published ++
          [.loansPaid loan_id r.lender_user_id r.lender_username
            r.borrower_user_id r.borrower_username amount r.unpaid_at.isSome] }
    else st4
  (ev.1, st5)

/-- The error kinds apply_repayment can raise: the three ValueErrors of the
source, the ZeroDivisionError of the frozen-rate computation at line 120 when
the stored principal USD amount is zero, and the ValueError convert raises on
an unsupported ISO code. -/
inductive ApplyError where
  | nonpositiveAmount
  | loanNotFound
  | zeroUsdRate
  | alreadyRepaid
  | unknownCurrency
deriving DecidableEq, Repr

/-- apply_repayment from src/utils/paid_utils.py, lines 52-246, over the
ledger state, with FX cache content abstracted as the oracle given to
convertRate.  Returns the raised error or the source's triple (repayment
event id, applied, remaining), together with the state after all writes
(unchanged state on a raise). -/
def apply_repayment (rates : String → String → ℚ) (st : LedgerState)
    (loan_id : ℕ) (amount : Money) :
    Except ApplyError (ℕ × Money × Money) × LedgerState :=
  if amount.minor ≤ 0 then (.error .nonpositiveAmount, st)
  else
    match fetchLoanJoin st loan_id with
    | none => (.error .loanNotFound, st)
    | some r =>
        if r.principal_usd_cents = 0 then (.error .zeroUsdRate, st)
        else
          let rate_loan_to_usd : ℚ := (r.principal_amount : ℚ) / (r.principal_usd_cents : ℚ)
          if r.principal_amount = r.principal_repayment_amount then (.error .alreadyRepaid, st)
          else
            let conv : Except ApplyError (Money × Option ℚ) :=
              if r.loan_currency = amount.currency then .ok (amount, none)
              else
                match convertRate rates amount.currency r.loan_currency with
                | none => .error .unknownCurrency
                | some rate_given_to_loan =>
                    .ok (⟨pyCeil ((amount.minor : ℚ) * rate_given_to_loan),
                          r.loan_currency, r.loan_currency_exp,
                          some r.loan_currency_symbol, r.loan_currency_symbol_on_left⟩,
                      some rate_given_to_loan)
            match conv with
            | .error e => (.error e, st)
            | .ok (loan_currency_amount, orate) =>
                let applied : Money :=
                  ⟨min (r.principal_amount - r.principal_repayment_amount)
                      loan_currency_amount.minor,
                    r.loan_currency, r.loan_currency_exp,
                    some r.loan_currency_symbol, r.loan_currency_symbol_on_left⟩
                let applied_usd_cents : ℤ := pyCeil ((applied.minor : ℚ) / rate_loan_to_usd)
                let remaining : Money :=
                  match orate with
                  | none =>
                      ⟨amount.minor - applied.minor, r.loan_currency, r.loan_currency_exp,
                        some r.loan_currency_symbol, r.loan_currency_symbol_on_left⟩
                  | some rate_given_to_loan =>
                      ⟨max 0 (amount.minor - pyCeil ((applied.minor : ℚ) / rate_given_to_loan)),
                        amount.currency, amount.exp, amount.symbol, amount.symbol_on_left⟩
                let new_princ_repayment_amount := r.principal_repayment_amount + applied.minor
                let new_princ_repayment_usd_cents : ℤ :=
                  pyCeil ((new_princ_repayment_amount : ℚ) / rate_loan_to_usd)
                let w := applyRepaymentWrites st loan_id r amount applied applied_usd_cents
                  new_princ_repayment_amount new_princ_repayment_usd_cents
                (.ok (w.1, applied, remaining), w.2)

/-! ## Concrete tokens (src/parsing/ext_tokens.py)

The concrete regexes of ext_tokens.py are hand-compiled to scanners on
character lists.  Each regex here is deterministic: wherever the Python
engine could backtrack (an optional symbol / fraction before a mandatory
class that can never match a digit, dot or symbol), every backtracking
alternative fails exactly when the greedy parse fails, so the greedy
scanners below have the same success set and the same consumed lengths. -/

/-- Split the maximal run of characters satisfying p from the front. -/
def munchWhile (p : Char → Bool) : List Char → List Char × List Char
  | [] => ([], [])
  | c :: t =>
      if p c then
        let r := munchWhile p t
        (c :: r.1, r.2)
      else ([], c :: t)

/-- Consume a literal character sequence, returning the remainder. -/
def dropLiteral : List Char → List Char → Option (List Char)
  | [], r => some r
  | _ :: _, [] => none
  | c :: cs, d :: r => if c = d then dropLiteral cs r else none

/-- A token defined by a scanner over the text suffix at the offset. -/
def patTok {α : Type} (f : List Char → Option (ℕ × α)) : Tok α :=
  ⟨fun text off => f (text.drop off)⟩

/-- The numeral regex [0-9]+(?:\.[0-9]\x7b0,4\x7d)? (greedy). -/
def scanAmt (l : List Char) : Option (List Char × List Char) :=
  let d := munchWhile isDigitCh l
  if d.1.isEmpty then none
  else
    match d.2 with
    | '.' :: r2 =>
        let f := munchWhile isDigitCh r2
        some (d.1 ++ '.' :: f.1.take 4, f.1.drop 4 ++ f.2)
    | r => some (d.1, r)

/-- The iso-code alternation AUD|GBP|EUR|CAD|JPY|MXN|USD (all three-letter,
pairwise distinct literals). -/
def scanIso (l : List Char) : Option (String × List Char) :=
  match l with
  | a :: b :: c :: r =>
      let s := String.mk [a, b, c]
      if (isoExpOf s).isSome then some (s, r) else none
  | _ => none

/-- The symbol alternation for dollar, euro and pound. -/
def scanSym (l : List Char) : Option (Char × List Char) :=
  match l with
  | c :: r => if (symbolIso c).isSome then some (c, r) else none
  | [] => none

/-- An optional non-capturing symbol. -/
def skipOptSym (l : List Char) : List Char :=
  match scanSym l with
  | some (_, r) => r
  | none => l

/-- The named groups the money-token regexes can bind.  Patterns 1 and 2 bind
iso and amt, patterns 3 and 4 bind sym and amt, pattern 5 binds amt only. -/
structure MoneyGroups where
  iso : Option String
  sym : Option Char
  amt : List Char
deriving DecidableEq, Repr

/-- Money pattern 1: \s* iso \s+ (sym)? amt (sym)? \s* (symbols
non-capturing). -/
def moneyPat1 (l : List Char) : Option (ℕ × MoneyGroups) :=
  let w1 := munchWhile pyIsSpace l
  match scanIso w1.2 with
  | none => none
  | some (iso, r2) =>
      let w2 := munchWhile pyIsSpace r2
      if w2.1.isEmpty then none
      else
        match scanAmt (skipOptSym w2.2) with
        | none => none
        | some (amt, r5) =>
            let w3 := munchWhile pyIsSpace (skipOptSym r5)
            some (l.length - w3.2.length, ⟨some iso, none, amt⟩)

/-- Money pattern 2: \s* (sym)? amt (sym)? \s+ iso \s*. -/
def moneyPat2 (l : List Char) : Option (ℕ × MoneyGroups) :=
  let w1 := munchWhile pyIsSpace l
  match scanAmt (skipOptSym w1.2) with
  | none => none
  | some (amt, r3) =>
      let w2 := munchWhile pyIsSpace (skipOptSym r3)
      if w2.1.isEmpty then none
      else
        match scanIso w2.2 with
        | none => none
        | some (iso, r5) =>
            let w3 := munchWhile pyIsSpace r5
            some (l.length - w3.2.length, ⟨some iso, none, amt⟩)

/-- Money pattern 3: \s* (?P sym) (?P amt) \s*. -/
def moneyPat3 (l : List Char) : Option (ℕ × MoneyGroups) :=
  let w1 := munchWhile pyIsSpace l
  match scanSym w1.2 with
  | none => none
  | some (sym, r2) =>
      match scanAmt r2 with
      | none => none
      | some (amt, r3) =>
          let w2 := munchWhile pyIsSpace r3
          some (l.length - w2.2.length, ⟨none, some sym, amt⟩)

/-- Money pattern 4: \s* (?P amt) (?P sym) \s*. -/
def moneyPat4 (l : List Char) : Option (ℕ × MoneyGroups) :=
  let w1 := munchWhile pyIsSpace l
  match scanAmt w1.2 with
  | none => none
  | some (amt, r2) =>
      match scanSym r2 with
      | none => none
      | some (sym, r3) =>
          let w2 := munchWhile pyIsSpace r3
          some (l.length - w2.2.length, ⟨none, some sym, amt⟩)

/-- Money pattern 5: \s* (?P amt) \s*. -/
def moneyPat5 (l : List Char) : Option (ℕ × MoneyGroups) :=
  let w1 := munchWhile pyIsSpace l
  match scanAmt w1.2 with
  | none => none
  | some (amt, r2) =>
      let w2 := munchWhile pyIsSpace r2
      some (l.length - w2.2.length, ⟨none, none, amt⟩)

/-- The FallbackToken of the five money regexes, yielding the bound groups. -/
def moneyGroupsTok : Tok MoneyGroups :=
  fallbackTok [patTok moneyPat1, patTok moneyPat2, patTok moneyPat3,
    patTok moneyPat4, patTok moneyPat5]

/-- The iso resolution of the transform in create_money_token: the iso group
if bound, else the symbol group through CURRENCY_SYMBOLS, else USD. -/
def resolveIso (g : MoneyGroups) : Option String :=
  match g.iso with
  | some i => some i
  | none =>
      match g.sym with
      | some s => symbolIso s
      | none => some "USD"

/-- The per-currency recheck regex of the transform: [0-9]+ when the exponent
is zero, else [0-9]+(?:\.[0-9]\x7bexp\x7d)? (full match). -/
def amtCheck (exp : ℕ) (amt : List Char) : Bool :=
  let d := munchWhile isDigitCh amt
  if exp = 0 then !d.1.isEmpty && d.2.isEmpty
  else
    !d.1.isEmpty &&
      (d.2.isEmpty ||
        match d.2 with
        | c :: f => decide (c = '.') && decide (f.length = exp) && f.all isDigitCh
        | [] => false)

/-- The fractional part of a numeral: the characters after the first dot, or
none when no dot occurs.  Used to state the claim about money values. -/
def fracOf : List Char → Option (List Char)
  | [] => none
  | c :: t => if c = '.' then some t else fracOf t

/-- The transform of create_money_token (src/parsing/ext_tokens.py lines
36-56): resolve the currency, recheck the numeral against the currency's
exponent, and build the Money value manipulating the numeral as a string. -/
def moneyTransform (g : MoneyGroups) : Option Money :=
  match resolveIso g with
  | none => none
  | some iso =>
      match isoExpOf iso with
      | none => none
      | some exp =>
          if amtCheck exp g.amt then
            if '.' ∈ g.amt then
              some ⟨(digitsToNat (g.amt.filter (fun c => ¬ c = '.')) : ℤ), iso, exp, none, false⟩
            else
              some ⟨(digitsToNat (g.amt ++ List.replicate exp '0') : ℤ), iso, exp, none, false⟩
          else none

/-- create_money_token from src/parsing/ext_tokens.py. -/
def moneyTok : Tok Money :=
  transformTok moneyGroupsTok moneyTransform

/-- User pattern 1: \s* /? u/ (word+) \s*, value the word group. -/
def userPat1 (l : List Char) : Option (ℕ × String) :=
  let w1 := munchWhile pyIsSpace l
  let r2 := match w1.2 with
    | '/' :: t => t
    | r => r
  match r2 with
  | 'u' :: '/' :: r3 =>
      let nm := munchWhile pyIsWord r3
      if nm.1.isEmpty then none
      else
        let w2 := munchWhile pyIsSpace nm.2
        some (l.length - w2.2.length, String.mk nm.1)
  | _ => none

/-- User pattern 2: a markdown link whose text is the username with an
optional slash-u-slash or u-slash prefix, and whose href targets u slash NAME
or user slash NAME on reddit.com with the same NAME (a backreference),
ignoring query string and fragment. -/
def userPat2 (l : List Char) : Option (ℕ × String) :=
  let w1 := munchWhile pyIsSpace l
  match w1.2 with
  | '[' :: r2 =>
      let r3 := match r2 with
        | '/' :: 'u' :: '/' :: t => t
        | 'u' :: '/' :: t => t
        | t => t
      let nm := munchWhile pyIsWord r3
      if nm.1.isEmpty then none
      else
        match nm.2 with
        | ']' :: '(' :: r4 =>
            match dropLiteral ['h', 't', 't', 'p'] r4 with
            | none => none
            | some r5 =>
                let r6 := match r5 with
                  | 's' :: t => t
                  | t => t
                match dropLiteral ("://reddit.com/u".data) r6 with
                | none => none
                | some r7 =>
                    let r8 := match r7 with
                      | 's' :: 'e' :: 'r' :: '/' :: t => some t
                      | '/' :: t => some t
                      | _ => none
                    match r8 with
                    | none => none
                    | some r9 =>
                        match dropLiteral nm.1 r9 with
                        | none => none
                        | some r10 =>
                            let r11 := match r10 with
                              | '?' :: t => (munchWhile (fun c => ¬ c = ')') t).2
                              | t => t
                            let r12 := match r11 with
                              | '#' :: t => (munchWhile (fun c => ¬ c = ')') t).2
                              | t => t
                            match r12 with
                            | ')' :: r13 =>
                                let w2 := munchWhile pyIsSpace r13
                                some (l.length - w2.2.length, String.mk nm.1)
                            | _ => none
        | _ => none
  | _ => none

/-- create_user_token from src/parsing/ext_tokens.py. -/
def userTok : Tok String :=
  fallbackTok [patTok userPat1, patTok userPat2]

/-- The "as CUR" token: \s* [aA][sS] \s+ iso \s*, value the iso group. -/
def asCurrencyTok : Tok String :=
  patTok (fun l =>
    let w1 := munchWhile pyIsSpace l
    match w1.2 with
    | a :: s :: r2 =>
        if (a = 'a' ∨ a = 'A') ∧ (s = 's' ∨ s = 'S') then
          let w2 := munchWhile pyIsSpace r2
          if w2.1.isEmpty then none
          else
            match scanIso w2.2 with
            | none => none
            | some (iso, r3) =>
                let w3 := munchWhile pyIsSpace r3
                some (l.length - w3.2.length, iso)
        else none
    | _ => none)

/-! ## Confirm summon (src/summons/confirm.py) -/

/-- The row shape of the confirm query's join (loans, creation infos, lender
and borrower users, principal money with its currency, principal repayment
money).  principal_usd_cents carries the stored USD of the principal row,
used by the claim's reading of the cross-currency match. -/
structure ConfirmLoanRow where
  loan_id : ℕ
  lender_username : String
  borrower_username : String
  principal_currency_code : String
  principal_amount : ℤ
  principal_usd_cents : ℤ
  principal_repayment_amount : ℤ
  created_at : ℤ
  repaid_at : Option ℤ
  unpaid_at : Option ℤ
  deleted_at : Option ℤ
deriving DecidableEq, Repr

/-- The usd_amount computation of ConfirmSummon.handle_comment (lines 42-51):
identity for USD, else floor of amount.minor times the inverted
USD-to-currency rate. -/
def confirm_usd_amount (rates : String → String → ℚ) (amt : Money) : Option Money :=
  if amt.currency = "USD" then some amt
  else
    match convertRate rates "USD" amt.currency with
    | none => none
    | some c => some ⟨pyTrunc ((amt.minor : ℚ) * (1 / c)), "USD", 2, some "$", true⟩

/-- The match disjunct of the confirm query's WHERE clause (lines 88-96):
exact currency-and-amount equality, or different currency and the loan's
native principal minor amount at most usd_amount.minor + 100. -/
def confirm_code_match (amt usd_amount : Money) (row : ConfirmLoanRow) : Bool :=
  (row.principal_currency_code = amt.currency ∧ row.principal_amount = amt.minor) ∨
    (¬ row.principal_currency_code = amt.currency ∧
      row.principal_amount ≤ usd_amount.minor + 100)

/-- The full WHERE clause of the confirm query (lines 83-96). -/
def confirm_code_pred (amt usd_amount : Money) (lender borrower : String)
    (row : ConfirmLoanRow) : Bool :=
  (row.lender_username = pyLower lender) ∧ (row.borrower_username = pyLower borrower) ∧
    row.principal_repayment_amount = 0 ∧ row.unpaid_at = none ∧ row.deleted_at = none ∧
    confirm_code_match amt usd_amount row = true

/-- ORDER BY created_at DESC LIMIT 1 (ties resolved to the earlier row). -/
def selectNewest : List ConfirmLoanRow → Option ConfirmLoanRow
  | [] => none
  | r :: rest =>
      match selectNewest rest with
      | none => some r
      | some b => if r.created_at < b.created_at then some b else some r

/-- The loan selection of ConfirmSummon.handle_comment: compute usd_amount,
then the newest row satisfying the query predicate; none means the no-match
template is posted. -/
def confirm_select (rates : String → String → ℚ) (rows : List ConfirmLoanRow)
    (amt : Money) (lender borrower : String) : Option ConfirmLoanRow :=
  match confirm_usd_amount rates amt with
  | none => none
  | some usd => selectNewest (rows.filter (confirm_code_pred amt usd lender borrower))

/-- The claim's wording of the match: exact in the native currency, or for a
cross-currency confirm the stored USD of the loan within 100 USD minor units
of the USD-equivalent of the confirming amount. -/
def confirm_claim_match (amt usd_amount : Money) (row : ConfirmLoanRow) : Bool :=
  (row.principal_currency_code = amt.currency ∧ row.principal_amount = amt.minor) ∨
    (¬ row.principal_currency_code = amt.currency ∧
      row.principal_usd_cents - usd_amount.minor ≤ 100 ∧
      usd_amount.minor - row.principal_usd_cents ≤ 100)

/-- The claim's wording of the filter: most recent non-repaid, non-unpaid,
non-deleted loan from the lender to the author whose principal matches. -/
def confirm_claim_pred (amt usd_amount : Money) (lender borrower : String)
    (row : ConfirmLoanRow) : Bool :=
  (row.lender_username = pyLower lender) ∧ (row.borrower_username = pyLower borrower) ∧
    row.repaid_at = none ∧ row.unpaid_at = none ∧ row.deleted_at = none ∧
    confirm_claim_match amt usd_amount row = true

/-- The loan selection exactly as claim C5 words it. -/
def confirm_select_claim (rates : String → String → ℚ) (rows : List ConfirmLoanRow)
    (amt : Money) (lender borrower : String) : Option ConfirmLoanRow :=
  match confirm_usd_amount rates amt with
  | none => none
  | some usd => selectNewest (rows.filter (confirm_claim_pred amt usd lender borrower))

/-! ## Loan summon (src/summons/loan.py) -/

/-- The heterogeneous token values the concrete parsers produce (Python lists
are heterogeneous; the sum type hosts Money, string and integer values). -/
inductive TokVal where
  | money (m : Money)
  | str (s : String)
  | nat (n : ℕ)
deriving DecidableEq, Repr

/-- The money token producing a TokVal. -/
def moneyTokV : Tok TokVal :=
  transformTok moneyTok (fun m => some (.money m))

/-- The as-currency token producing a TokVal. -/
def asCurrencyTokV : Tok TokVal :=
  transformTok asCurrencyTok (fun s => some (.str s))

/-- The user token producing a TokVal. -/
def userTokV : Tok TokVal :=
  transformTok userTok (fun s => some (.str s))

/-- The PARSER of src/summons/loan.py: anchor, a required money token and an
optional as-currency token. -/
def loanParserDef : ParserDef TokVal :=
  ⟨["$loan".data], [(moneyTokV, false), (asCurrencyTokV, true)]⟩

/-- The comment fields LoanSummon.handle_comment reads. -/
structure CommentInfo where
  body : List Char
  author : String
  link_author : String
  fullname : String
  link_fullname : String
  created_utc : ℤ
deriving DecidableEq, Repr

/-- The failures of LoanSummon.handle_comment: indexing a failed parse, a
currency lookup KeyError or conversion ValueError, and a parameter-count
mismatch between an INSERT's placeholders, its bound arguments and its column
list (psycopg2 and the server reject the statement). -/
inductive LoanSummonError where
  | parseFailure
  | unknownCurrency
  | arityMismatch (table : String)
deriving DecidableEq, Repr

/-- Executing an INSERT: psycopg2 rejects a placeholder count different from
the bound-argument count, and the server rejects a column list whose length
differs from the VALUES row. -/
def execInsert (table : String) (columns placeholders args : ℕ) :
    Except LoanSummonError Unit :=
  if placeholders = args ∧ placeholders = columns then Except.ok ()
  else Except.error (.arityMismatch table)

/-- The users find_or_create_or_find of src/summons/loan.py (lines 67-102),
keyed by the lowercased username. -/
def find_or_create_user (st : LedgerState) (username : String) : ℕ × LedgerState :=
  match st.users.find? (fun p => p.2 = username) with
  | some p => (p.1, st)
  | none =>
      (st.next_id,
        { st with users := st.users ++ [(st.next_id, username)], next_id := st.next_id + 1 })

/-- LoanSummon.handle_comment from src/summons/loan.py (lines 38-230) up to
its database writes: parse, resolve the store currency, convert the stored
and USD amounts, find-or-create the two users and the currency row, then the
four INSERTs with their literal placeholder counts from the source — the
principal moneys insert uses range(3) for 3 columns, the zero
principal-repaid moneys insert uses range(4) for 3 columns and 3 arguments,
the loans insert uses range(7) for 8 columns and 8 arguments, the creation
info insert uses range(5) for 5 columns.  No event is published anywhere in
the handler.  On success returns the state and the new loan id. -/
def loan_handle_comment (rates : String → String → ℚ) (st : LedgerState)
    (c : CommentInfo) : Except LoanSummonError (LedgerState × ℕ) := do
  match parse loanParserDef c.body with
  | none => throw .parseFailure
  | some vals =>
      match vals with
      | [some (TokVal.money amount), asOpt] =>
          let store_currency :=
            match asOpt with
            | some (TokVal.str cur) => cur
            | _ => amount.currency
          let store_amount : Money ←
            if amount.currency = store_currency then pure amount
            else
              match convertRate rates amount.currency store_currency with
              | none => throw .unknownCurrency
              | some rate =>
                  match isoExpOf store_currency with
                  | none => throw .unknownCurrency
                  | some exp =>
                      pure (Money.mk (pyTrunc ((amount.minor : ℚ) * rate)) store_currency exp
                        none false)
          let usd_amount : Money ←
            if store_currency = "USD" then pure store_amount
            else
              match convertRate rates "USD" store_currency with
              | none => throw .unknownCurrency
              | some cr =>
                  pure (Money.mk (pyTrunc ((store_amount.minor : ℚ) * (1 / cr))) "USD" 2
                    none false)
          let u1 := find_or_create_user st (pyLower c.author)
          let u2 := find_or_create_user u1.2 (pyLower c.link_author)
          let cur : (ℕ × String × Bool) × LedgerState ←
            match u2.2.currencies.find? (fun p => p.2.code = store_currency) with
            | some p => pure ((p.1, p.2.symbol, p.2.symbol_on_left), u2.2)
            | none =>
                match isoExpOf store_currency with
                | none => throw .unknownCurrency
                | some exp => do
                    execInsert "currencies" 4 4 4
                    pure ((u2.2.next_id, " " ++ store_currency, false),
                      { u2.2 with
                        currencies := u2.2.currencies ++
                          [(u2.2.next_id, ⟨store_currency, " " ++ store_currency, false, exp⟩)]
                        next_id := u2.2.next_id + 1 })
          let currency_id := cur.1.1
          let st3 := cur.2
          execInsert "moneys" 3 3 3
          let principal_id := st3.next_id
          let st4 := { st3 with
            moneys := st3.moneys ++ [(principal_id, MoneyRow.mk currency_id
              store_amount.minor usd_amount.minor)]
            next_id := st3.next_id + 1 }
          execInsert "moneys" 3 4 3
          let principal_repayment_id := st4.next_id
          let st5 := { st4 with
            moneys := st4.moneys ++ [(principal_repayment_id, MoneyRow.mk currency_id 0 0)]
            next_id := st4.next_id + 1 }
          execInsert "loans" 8 7 8
          let loan_id := st5.next_id
          let st6 := { st5 with
            loans := st5.loans ++ [(loan_id, LoanRow.mk u1.1 u2.1 principal_id
              principal_repayment_id c.created_utc none none none)]
            next_id := st5.next_id + 1 }
          execInsert "loan_creation_infos" 5 5 5
          pure (st6, loan_id)
      | _ => throw .parseFailure

/-! ## Concrete instances used by witnesses and counterexamples -/

/-- A trivial FX oracle. -/
def ratesOne : String → String → ℚ := fun _ _ => 1

/-- A ledger state holding one open USD loan whose stored principal USD
amount is zero (possible for tiny cross-currency principals, since loan
creation floors the USD conversion). -/
def zeroUsdState : LedgerState :=
  { users := [(1, "lender1"), (2, "borrower1")]
    currencies := [(3, ⟨"USD", "$", true, 2⟩)]
    moneys := [(4, ⟨3, 100, 0⟩), (5, ⟨3, 0, 0⟩)]
    loans := [(6, ⟨1, 2, 4, 5, 0, none, none, none⟩)]
    loan_repayment_events := []
    loan_unpaid_events := []
    published := []
    next_id := 7
    now := 0 }

/-- A ledger state holding one open, untouched USD loan of 1000 minor units
with stored USD 1000. -/
def usdLoanState : LedgerState :=
  { users := [(1, "lender1"), (2, "borrower1")]
    currencies := [(3, ⟨"USD", "$", true, 2⟩)]
    moneys := [(4, ⟨3, 1000, 1000⟩), (5, ⟨3, 0, 0⟩)]
    loans := [(6, ⟨1, 2, 4, 5, 0, none, none, none⟩)]
    loan_repayment_events := []
    loan_unpaid_events := []
    published := []
    next_id := 7
    now := 0 }

/-- An empty ledger. -/
def emptyLedgerState : LedgerState := ⟨[], [], [], [], [], [], [], 1, 0⟩

/-- A loan-creating comment with body dollar-loan dollar-100. -/
def loanComment : CommentInfo :=
  ⟨"$loan $100".data, "Lender1", "Borrower1", "t1_c1", "t3_p1", 1000⟩

/-- An open untouched GBP loan (5000 minor) whose stored USD (6500 cents)
differs by 2500 cents from the confirming amount below. -/
def gbpLoanRow : ConfirmLoanRow :=
  ⟨10, "lender1", "borrower1", "GBP", 5000, 6500, 0, 100, none, none, none⟩

/-- A confirming amount of 90 USD. -/
def confirmAmt : Money := ⟨9000, "USD", 2, none, false⟩

/-- The amount used by the repayment witnesses: 3 USD. -/
def wAmount : Money := ⟨300, "USD", 2, none, false⟩

/-- The applied money apply_repayment produces on usdLoanState for wAmount. -/
def wApplied : Money := ⟨300, "USD", 2, some "$", true⟩

/-- The remaining money apply_repayment produces on usdLoanState for wAmount. -/
def wRemaining : Money := ⟨0, "USD", 2, some "$", true⟩

/-- The joined row fetched for loan 6 of usdLoanState. -/
def wFetched : FetchedLoan :=
  ⟨1, "lender1", 2, "borrower1", 3, "USD", 2, "$", true, 1000, 1000, 5, 0, none⟩

/-- The state after apply_repayment on usdLoanState with wAmount. -/
def wState2 : LedgerState :=
  { users := [(1, "lender1"), (2, "borrower1")]
    currencies := [(3, ⟨"USD", "$", true, 2⟩)]
    moneys := [(4, ⟨3, 1000, 1000⟩), (5, ⟨3, 0, 0⟩), (7, ⟨3, 300, 300⟩)]
    loans := [(6, ⟨1, 2, 4, 7, 0, none, none, none⟩)]
    loan_repayment_events := [(8, 6, 7)]
    loan_unpaid_events := []
    published := []
    next_id := 9
    now := 0 }

/-! ## Theorems for C6 -/

lemma combineBest_none_left (r : Option (List Char × ℕ)) : combineBest none r = r := by
  rcases r with _ | ⟨x, y⟩ <;> rfl

lemma combineBest_none_right (b : Option (List Char × ℕ)) : combineBest b none = b := by
  rcases b with _ | ⟨x, y⟩ <;> rfl

lemma bestAnchorGo_eq_combine (text : List Char) (s : ℕ) (l : List (List Char))
    (best : Option (List Char × ℕ)) :
    bestAnchorGo text s l best = combineBest best (earliestAnchorSpec text s l) := by
  induction l generalizing best with
  | nil => cases best <;> rfl
  | cons a rest ih =>
      simp only [bestAnchorGo, earliestAnchorSpec]
      cases hf : pyStrFind text a s with
      | none =>
          exact ih best
      | some i =>
          rw [ih]
          cases hr : earliestAnchorSpec text s rest with
          | none =>
              cases best with
              | none => rfl
              | some b =>
                  rcases b with ⟨bv, bi⟩
                  rw [combineBest_none_right]
                  rfl
          | some cj =>
              rcases cj with ⟨c, j⟩
              cases best with
              | none =>
                  show (if j < i then some (c, j) else some (a, i))
                      = combineBest none (if i ≤ j then some (a, i) else some (c, j))
                  rw [combineBest_none_left]
                  rcases le_or_lt i j with hij | hij
                  · rw [if_neg (by omega), if_pos hij]
                  · rw [if_pos hij, if_neg (by omega)]
              | some b =>
                  rcases b with ⟨bv, bi⟩
                  show combineBest (if i < bi then some (a, i) else some (bv, bi)) (some (c, j))
                      = combineBest (some (bv, bi)) (if i ≤ j then some (a, i) else some (c, j))
                  by_cases hib : i < bi
                  · rw [if_pos hib]
                    show (if j < i then some (c, j) else some (a, i))
                        = combineBest (some (bv, bi)) (if i ≤ j then some (a, i) else some (c, j))
                    rcases le_or_lt i j with hij | hij
                    · rw [if_neg (by omega), if_pos hij]
                      show some (a, i) = if i < bi then some (a, i) else some (bv, bi)
                      rw [if_pos hib]
                    · rw [if_pos hij, if_neg (by omega)]
                      show some (c, j) = if j < bi then some (c, j) else some (bv, bi)
                      rw [if_pos (by omega)]
                  · rw [if_neg hib]
                    show (if j < bi then some (c, j) else some (bv, bi))
                        = combineBest (some (bv, bi)) (if i ≤ j then some (a, i) else some (c, j))
                    rcases le_or_lt i j with hij | hij
                    · rw [if_pos hij, if_neg (by omega)]
                      show some (bv, bi) = if i < bi then some (a, i) else some (bv, bi)
                      rw [if_neg hib]
                    · rw [if_neg (show ¬ i ≤ j by omega)]
                      rfl

lemma bestAnchor_eq_earliest (anchors : List (List Char)) (text : List Char) (s : ℕ) :
    bestAnchor anchors text s = earliestAnchorSpec text s anchors := by
  rw [bestAnchor, bestAnchorGo_eq_combine, combineBest_none_left]

lemma runTokens_eq_amended {α : Type} (l : List (Tok α × Bool)) (text : List Char)
    (i : ℕ) : runTokens l text i = runTokensSpecAmended l text i := by
  induction l generalizing i with
  | nil => rfl
  | cons p rest ih =>
      rcases p with ⟨tok, opt⟩
      simp only [runTokens, runTokensSpecAmended]
      cases h : (if i < text.length then tok.consume text i else none) with
      | none => simp only [ih]
      | some r => simp only [ih]

lemma parseAux_eq_amended {α : Type} (p : ParserDef α) (text : List Char)
    (fuel searchFrom : ℕ) :
    parseAux p text fuel searchFrom = parseSpecAmendedAux p text fuel searchFrom := by
  induction fuel generalizing searchFrom with
  | zero => rfl
  | succ n ih =>
      simp only [parseAux, parseSpecAmendedAux, bestAnchor_eq_earliest,
        runTokens_eq_amended]
      cases earliestAnchorSpec text searchFrom p.anchors with
      | none => rfl
      | some ai =>
          rcases ai with ⟨anch, idx⟩
          show (match runTokensSpecAmended p.tokens text (idx + anch.length) with
                | some vals => some vals
                | none => parseAux p text n (idx + 1))
              = (match runTokensSpecAmended p.tokens text (idx + anch.length) with
                | some vals => some vals
                | none => parseSpecAmendedAux p text n (idx + 1))
          cases runTokensSpecAmended p.tokens text (idx + anch.length) with
          | none => exact ih (idx + 1)
          | some vals => rfl

/-- C6 (amended): Parser.parse finds the earliest occurrence of any anchor
(none → not-found); a token is attempted only while the current offset is
strictly inside the text, and a token at or past the end of the text is
treated as failed without being attempted; a failed optional token records
None without advancing; a failed required token abandons the anchor
occurrence and resumes the anchor search strictly after the anchor's start
index; when all tokens succeed the ordered value list is returned. -/
theorem C6_parse_matches_amended_spec {α : Type} (p : ParserDef α) (text : List Char) :
    parse p text = parseSpecAmended p text :=
  parseAux_eq_amended p text (text.length + 2) 0

/-- C6 counterexample: a required token that succeeds consuming zero
characters at the end of the text.  The claim's described algorithm attempts
it and returns its value, but the source guards with token_index < len(text)
and fails the anchor without attempting the token, returning None. -/
theorem C6_counterexample :
    parse (ParserDef.mk [['a']] [(Tok.mk (fun _ _ => some (0, (0 : ℕ))), false)]) ['a']
        = none ∧
      parseSpecClaim (ParserDef.mk [['a']] [(Tok.mk (fun _ _ => some (0, (0 : ℕ))), false)])
        ['a'] = some [some 0] :=
  ⟨rfl, rfl⟩

/-! ## Theorems for C7 and C9 -/

lemma munchWhile_append_self (p : Char → Bool) (l : List Char) :
    (munchWhile p l).1 ++ (munchWhile p l).2 = l := by
  induction l with
  | nil => rfl
  | cons c t ih =>
      by_cases h : p c <;> simp [munchWhile, h, ih]

lemma munchWhile_all (p : Char → Bool) (l : List Char) :
    (munchWhile p l).1.all p = true := by
  induction l with
  | nil => rfl
  | cons c t ih =>
      by_cases h : p c <;> simp [munchWhile, h, ih]

lemma munchWhile_neg (p : Char → Bool) (c : Char) (t : List Char) (h : p c = false) :
    munchWhile p (c :: t) = ([], c :: t) := by
  simp [munchWhile, h]

lemma munchWhile_append_of_all (p : Char → Bool) (a l : List Char) (h : a.all p = true) :
    munchWhile p (a ++ l) = (a ++ (munchWhile p l).1, (munchWhile p l).2) := by
  induction a with
  | nil => simp
  | cons c t ih =>
      simp only [List.all_cons, Bool.and_eq_true] at h
      simp [munchWhile, h.1, ih h.2]

lemma isDigit_ne_dot (c : Char) (h : isDigitCh c = true) : ¬ c = '.' := by
  intro he
  subst he
  exact absurd h (by decide)

lemma all_digits_dot_not_mem (l : List Char) (h : l.all isDigitCh = true) : '.' ∉ l := by
  intro hm
  have := List.all_eq_true.mp h _ hm
  exact absurd this (by decide)

lemma fracOf_eq_none_iff (l : List Char) : fracOf l = none ↔ '.' ∉ l := by
  induction l with
  | nil => simp [fracOf]
  | cons c t ih =>
      by_cases h : c = '.'
      · subst h
        simp [fracOf]
      · simp [fracOf, h, ih, Ne.symm h]

lemma fracOf_digits_append (ds f : List Char) (h : ds.all isDigitCh = true) :
    fracOf (ds ++ '.' :: f) = some f := by
  induction ds with
  | nil => simp [fracOf]
  | cons c t ih =>
      simp only [List.all_cons, Bool.and_eq_true] at h
      simp [fracOf, isDigit_ne_dot c h.1, ih h.2]

lemma digitsToNat_append_replicate (l : List Char) (e : ℕ) :
    digitsToNat (l ++ List.replicate e '0') = digitsToNat l * 10 ^ e := by
  induction e generalizing l with
  | zero => simp
  | succ n ih =>
      have : l ++ List.replicate (n + 1) '0' = (l ++ ['0']) ++ List.replicate n '0' := by
        simp [List.replicate_succ]
      rw [this, ih]
      have h0 : digitsToNat (l ++ ['0']) = digitsToNat l * 10 := by
        simp [digitsToNat, List.foldl_append, digitVal]
      rw [h0]
      ring

lemma amtCheck_elim (exp : ℕ) (amt : List Char) (h : amtCheck exp amt = true) :
    (munchWhile isDigitCh amt).1 ≠ [] ∧
      ((munchWhile isDigitCh amt).2 = [] ∨
        ∃ f, (munchWhile isDigitCh amt).2 = '.' :: f ∧ f.length = exp ∧
          f.all isDigitCh = true ∧ exp ≠ 0) := by
  unfold amtCheck at h
  by_cases he : exp = 0
  · rw [if_pos he] at h
    simp only [Bool.and_eq_true, Bool.not_eq_eq_eq_not, Bool.not_true,
      List.isEmpty_eq_false, List.isEmpty_eq_true] at h
    exact ⟨h.1, Or.inl h.2⟩
  · rw [if_neg he] at h
    simp only [Bool.and_eq_true, Bool.not_eq_eq_eq_not, Bool.not_true,
      List.isEmpty_eq_false] at h
    refine ⟨h.1, ?_⟩
    rcases hd2 : (munchWhile isDigitCh amt).2 with _ | ⟨c, f⟩
    · exact Or.inl rfl
    · rw [hd2] at h
      have h2 := h.2
      simp only [List.isEmpty_cons, Bool.false_or, Bool.and_eq_true,
        decide_eq_true_eq] at h2
      exact Or.inr ⟨f, by rw [h2.1.1], h2.1.2, h2.2, he⟩

lemma amtCheck_fracOf (exp : ℕ) (amt : List Char) (h : amtCheck exp amt = true) :
    fracOf amt = none ∨ ∃ f, fracOf amt = some f ∧ f.length = exp := by
  obtain ⟨h1, h2⟩ := amtCheck_elim exp amt h
  rcases h2 with h2 | ⟨f, hf, hlen, hdig, hne⟩
  · left
    have ha : amt = (munchWhile isDigitCh amt).1 := by
      conv_lhs => rw [← munchWhile_append_self isDigitCh amt]
      rw [h2, List.append_nil]
    rw [fracOf_eq_none_iff, ha]
    exact all_digits_dot_not_mem _ (munchWhile_all _ _)
  · right
    refine ⟨f, ?_, hlen⟩
    have ha : amt = (munchWhile isDigitCh amt).1 ++ '.' :: f := by
      conv_lhs => rw [← munchWhile_append_self isDigitCh amt]
      rw [hf]
    rw [ha, fracOf_digits_append _ _ (munchWhile_all _ _)]

lemma fracOf_some_mem_dot (amt : List Char) (f : List Char) (h : fracOf amt = some f) :
    '.' ∈ amt := by
  by_contra hm
  rw [← fracOf_eq_none_iff] at hm
  rw [hm] at h
  exact Option.noConfusion h

lemma transformTok_consume_elim {α β : Type} (child : Tok α) (f : α → Option β)
    (text : List Char) (off n : ℕ) (w : β)
    (h : (transformTok child f).consume text off = some (n, w)) :
    ∃ v, child.consume text off = some (n, v) ∧ f v = some w := by
  rcases hc : child.consume text off with _ | ⟨m, v⟩
  · have : (transformTok child f).consume text off = none := by
      show (match child.consume text off with
            | none => none
            | some (n, v) =>
                match f v with
                | none => none
                | some w => some (n, w)) = none
      rw [hc]
    rw [this] at h
    exact Option.noConfusion h
  · have hstep : (transformTok child f).consume text off
        = (match f v with | none => none | some w => some (m, w)) := by
      show (match child.consume text off with
            | none => none
            | some (n, v) =>
                match f v with
                | none => none
                | some w => some (n, w))
          = (match f v with | none => none | some w => some (m, w))
      rw [hc]
    rw [hstep] at h
    rcases hf : f v with _ | w2
    · rw [hf] at h
      exact Option.noConfusion h
    · rw [hf] at h
      have h1 : m = n ∧ w2 = w := by
        have := Option.some.inj h
        exact ⟨congrArg Prod.fst this, congrArg Prod.snd this⟩
      obtain ⟨hmn, hww⟩ := h1
      subst hmn
      subst hww
      exact ⟨v, rfl, hf⟩

lemma moneyTransform_elim (g : MoneyGroups) (m : Money)
    (h : moneyTransform g = some m) :
    ∃ iso exp, resolveIso g = some iso ∧ isoExpOf iso = some exp ∧
      amtCheck exp g.amt = true ∧ m.currency = iso ∧ m.exp = exp ∧
      m.symbol = none ∧ m.symbol_on_left = false ∧
      (('.' ∈ g.amt ∧
          m.minor = (digitsToNat (g.amt.filter (fun c => ¬ c = '.')) : ℤ)) ∨
        ('.' ∉ g.amt ∧
          m.minor = (digitsToNat (g.amt ++ List.replicate exp '0') : ℤ))) := by
  unfold moneyTransform at h
  rcases hri : resolveIso g with _ | iso
  · rw [hri] at h
    exact Option.noConfusion h
  simp only [hri] at h
  rcases hie : isoExpOf iso with _ | exp
  · rw [hie] at h
    exact Option.noConfusion h
  simp only [hie] at h
  by_cases hck : amtCheck exp g.amt = true
  · rw [if_pos hck] at h
    by_cases hdot : '.' ∈ g.amt
    · rw [if_pos hdot] at h
      have hm := (Option.some.inj h).symm
      subst hm
      exact ⟨iso, exp, rfl, hie, hck, rfl, rfl, rfl, rfl, Or.inl ⟨hdot, rfl⟩⟩
    · rw [if_neg hdot] at h
      have hm := (Option.some.inj h).symm
      subst hm
      exact ⟨iso, exp, rfl, hie, hck, rfl, rfl, rfl, rfl, Or.inr ⟨hdot, rfl⟩⟩
  · rw [if_neg hck] at h
    exact Option.noConfusion h

/-- C7: for every money literal consumed by the money token the value is
Money(minor, currency) with minor = integer(amount) * 10^exp when the numeral
has no decimal point, and minor = integer(amount with the dot removed) when
the fractional part has exactly exp digits for the resolved currency; a
fractional part whose length differs from the currency's exponent makes the
token fail (so also any fractional part for exponent-zero currencies such as
JPY); when neither a symbol nor an ISO code appears the currency is USD. -/
theorem C7_money_token_value :
    (∀ (text : List Char) (off n : ℕ) (m : Money),
      moneyTok.consume text off = some (n, m) →
      ∃ g : MoneyGroups,
        moneyGroupsTok.consume text off = some (n, g) ∧
        moneyTransform g = some m ∧
        resolveIso g = some m.currency ∧
        isoExpOf m.currency = some m.exp ∧
        (g.iso = none → g.sym = none → m.currency = "USD") ∧
        (fracOf g.amt = none →
          m.minor = (digitsToNat g.amt : ℤ) * (10 : ℤ) ^ m.exp) ∧
        (∀ f, fracOf g.amt = some f →
          f.length = m.exp ∧
            m.minor = (digitsToNat (g.amt.filter (fun c => ¬ c = '.')) : ℤ))) ∧
    (∀ (g : MoneyGroups) (i : String) (e : ℕ) (f : List Char),
      resolveIso g = some i → isoExpOf i = some e →
      fracOf g.amt = some f → f.length ≠ e → moneyTransform g = none) := by
  constructor
  · intro text off n m h
    obtain ⟨g, hg, ht⟩ := transformTok_consume_elim moneyGroupsTok moneyTransform text off n m h
    obtain ⟨iso, exp, hri, hie, hck, hcur, hexp, _, _, hval⟩ := moneyTransform_elim g m ht
    refine ⟨g, hg, ht, by rw [hcur]; exact hri, by rw [hcur, hexp]; exact hie, ?_, ?_, ?_⟩
    · intro hiso hsym
      rw [hcur]
      have : resolveIso g = some "USD" := by
        unfold resolveIso
        rw [hiso, hsym]
      rw [this] at hri
      exact (Option.some.inj hri).symm
    · intro hfrac
      have hdotn : '.' ∉ g.amt := (fracOf_eq_none_iff g.amt).mp hfrac
      rcases hval with ⟨hdot, _⟩ | ⟨_, hmin⟩
      · exact absurd hdot hdotn
      · rw [hmin, hexp, digitsToNat_append_replicate]
        push_cast
        ring
    · intro f hfrac
      have hdot : '.' ∈ g.amt := fracOf_some_mem_dot g.amt f hfrac
      rcases amtCheck_fracOf exp g.amt hck with hn | ⟨f2, hf2, hlen⟩
      · rw [hn] at hfrac
        exact Option.noConfusion hfrac
      · rw [hf2] at hfrac
        have hff : f2 = f := Option.some.inj hfrac
        subst hff
        rcases hval with ⟨_, hmin⟩ | ⟨hdotn, _⟩
        · exact ⟨by rw [hexp]; exact hlen, hmin⟩
        · exact absurd hdot hdotn
  · intro g i e f hri hie hfrac hne
    have hck : amtCheck e g.amt = false := by
      by_contra hcc
      have hck2 : amtCheck e g.amt = true := by
        rcases hb : amtCheck e g.amt with _ | _
        · exact absurd hb hcc
        · rfl
      rcases amtCheck_fracOf e g.amt hck2 with hn | ⟨f2, hf2, hlen⟩
      · rw [hn] at hfrac
        exact Option.noConfusion hfrac
      · rw [hf2] at hfrac
        have := Option.some.inj hfrac
        subst this
        exact hne hlen
    simp [moneyTransform, hri, hie, hck]

/-- Concrete instantiation of the success half of C7_money_token_value at the
literal dollar twelve point three four. -/
theorem C7_money_token_value_witness :
    moneyTok.consume ("$12.34".data) 0 = some (6, Money.mk 1234 "USD" 2 none false) ∧
      ∃ g : MoneyGroups,
        moneyGroupsTok.consume ("$12.34".data) 0 = some (6, g) ∧
        moneyTransform g = some (Money.mk 1234 "USD" 2 none false) ∧
        resolveIso g = some (Money.mk 1234 "USD" 2 none false).currency ∧
        isoExpOf (Money.mk 1234 "USD" 2 none false).currency
          = some (Money.mk 1234 "USD" 2 none false).exp ∧
        (g.iso = none → g.sym = none →
          (Money.mk 1234 "USD" 2 none false).currency = "USD") ∧
        (fracOf g.amt = none →
          (Money.mk 1234 "USD" 2 none false).minor
            = (digitsToNat g.amt : ℤ) * (10 : ℤ) ^ (Money.mk 1234 "USD" 2 none false).exp) ∧
        (∀ f, fracOf g.amt = some f →
          f.length = (Money.mk 1234 "USD" 2 none false).exp ∧
            (Money.mk 1234 "USD" 2 none false).minor
              = (digitsToNat (g.amt.filter (fun c => ¬ c = '.')) : ℤ)) :=
  ⟨by decide,
    C7_money_token_value.1 ("$12.34".data) 0 6 (Money.mk 1234 "USD" 2 none false) (by decide)⟩

/-- C9 counterexample: on a hyphenated reference the user token consumes only
through the word characters before the hyphen and yields the truncated name,
not the full hyphenated username. -/
theorem C9_counterexample :
    userTok.consume ("/u/john-doe".data) 0 = some (7, "john") ∧ "john" ≠ "john-doe" :=
  ⟨by decide, by decide⟩

/-- C9 (amended): NAME in the user token is word characters only (letters,
digits, underscore — no hyphen); on a reference whose name part is w1 then a
hyphen, the token succeeds but consumes only through w1 and yields w1. -/
theorem C9_user_token_hyphen_truncates (w1 w2 rest : List Char) (h1 : w1 ≠ [])
    (h2 : w1.all pyIsWord = true) :
    userTok.consume ('/' :: 'u' :: '/' :: ((w1 ++ '-' :: w2) ++ rest)) 0
      = some (3 + w1.length, String.mk w1) := by
  have hb : (w1 ++ '-' :: w2) ++ rest = w1 ++ '-' :: (w2 ++ rest) := by
    simp
  have hw : munchWhile pyIsWord ((w1 ++ '-' :: w2) ++ rest) = (w1, '-' :: (w2 ++ rest)) := by
    rw [hb, munchWhile_append_of_all _ _ _ h2,
      munchWhile_neg _ _ _ (by decide : pyIsWord '-' = false)]
    simp
  have hpat : userPat1 ('/' :: 'u' :: '/' :: ((w1 ++ '-' :: w2) ++ rest))
      = some (3 + w1.length, String.mk w1) := by
    show (let nm := munchWhile pyIsWord ((w1 ++ '-' :: w2) ++ rest)
          if nm.1.isEmpty then none
          else
            let w2s := munchWhile pyIsSpace nm.2
            some ((('/' :: 'u' :: '/' :: ((w1 ++ '-' :: w2) ++ rest)).length
                - w2s.2.length), String.mk nm.1))
        = some (3 + w1.length, String.mk w1)
    rw [hw]
    show (if w1.isEmpty then none
          else
            let w2s := munchWhile pyIsSpace ('-' :: (w2 ++ rest))
            some ((('/' :: 'u' :: '/' :: ((w1 ++ '-' :: w2) ++ rest)).length
                - w2s.2.length), String.mk w1))
        = some (3 + w1.length, String.mk w1)
    rw [if_neg (by simp [List.isEmpty_eq_true, h1]),
      munchWhile_neg _ _ _ (by decide : pyIsSpace '-' = false)]
    have hlen : ('/' :: 'u' :: '/' :: ((w1 ++ '-' :: w2) ++ rest)).length
        - ('-' :: (w2 ++ rest)).length = 3 + w1.length := by
      simp [List.length_append]
      omega
    show some ((('/' :: 'u' :: '/' :: ((w1 ++ '-' :: w2) ++ rest)).length
        - ('-' :: (w2 ++ rest)).length), String.mk w1)
      = some (3 + w1.length, String.mk w1)
    rw [hlen]
  have hstart : userTok.consume ('/' :: 'u' :: '/' :: ((w1 ++ '-' :: w2) ++ rest)) 0
      = fallbackConsume [patTok userPat1, patTok userPat2]
        ('/' :: 'u' :: '/' :: ((w1 ++ '-' :: w2) ++ rest)) 0 := rfl
  rw [hstart]
  simp only [fallbackConsume, patTok, List.drop_zero]
  rw [hpat]

/-- Concrete instantiation of C9_user_token_hyphen_truncates. -/
theorem C9_user_token_hyphen_truncates_witness :
    ("ab".data ≠ [] ∧ ("ab".data).all pyIsWord = true) ∧
      userTok.consume ('/' :: 'u' :: '/' :: (("ab".data ++ '-' :: "cd".data) ++ [])) 0
        = some (3 + ("ab".data).length, String.mk ("ab".data)) :=
  ⟨⟨by decide, by decide⟩,
    C9_user_token_hyphen_truncates ("ab".data) ("cd".data) [] (by decide) (by decide)⟩

/-! ## Theorems for C8 and C10 -/

lemma kvsRead_cons (p : String × PermDoc) (t : PermStore) (k : String) :
    kvsRead (p :: t) k = if p.1 = k then some p.2 else kvsRead t k := by
  by_cases hp : p.1 = k <;> simp [kvsRead, List.find?_cons, hp]

lemma kvsDelete_cons (p : String × PermDoc) (t : PermStore) (k : String) :
    kvsDelete (p :: t) k = if p.1 = k then kvsDelete t k else p :: kvsDelete t k := by
  by_cases hp : p.1 = k <;> simp [kvsDelete, List.filter_cons, hp]

lemma kvsRead_kvsDelete_ne (kvs : PermStore) (k k' : String) (h : k' ≠ k) :
    kvsRead (kvsDelete kvs k) k' = kvsRead kvs k' := by
  induction kvs with
  | nil => rfl
  | cons p t ih =>
      rw [kvsDelete_cons]
      by_cases hp : p.1 = k
      · rw [if_pos hp, ih, kvsRead_cons,
          if_neg (fun hk => h (by rw [← hk]; exact hp))]
      · rw [if_neg hp, kvsRead_cons, kvsRead_cons, ih]

lemma fetch_info_cached_congr (kvs kvs' : PermStore) (now : ℚ) (kmin : ℤ)
    (username : String)
    (h : kvsRead kvs' (pyLower username) = kvsRead kvs (pyLower username)) :
    fetch_info_cached kvs' now kmin username = fetch_info_cached kvs now kmin username := by
  simp only [fetch_info_cached, h]

/-- C10: fetch_info reads and writes the permission snapshot under the
lowercased username, while flush_cache deletes the document keyed by the
username exactly as given; hence for a username that is not all-lowercase,
flushing and then fetching still observes the old cached snapshot — the flush
touched no key that fetch_info uses. -/
theorem C10_flush_then_fetch_observes_old_snapshot
    (kvs : PermStore) (now : ℚ) (kmin : ℤ) (oracle : RedditOracle)
    (username : String) (h : pyLower username ≠ username) :
    (fetch_info (flush_cache kvs username) now kmin oracle username).1
        = (fetch_info kvs now kmin oracle username).1 ∧
      kvsRead (flush_cache kvs username) (pyLower username)
        = kvsRead kvs (pyLower username) := by
  have hr : kvsRead (kvsDelete kvs username) (pyLower username)
      = kvsRead kvs (pyLower username) :=
    kvsRead_kvsDelete_ne kvs username (pyLower username) h
  have hcache := fetch_info_cached_congr kvs (flush_cache kvs username) now kmin username hr
  refine ⟨?_, hr⟩
  simp only [fetch_info, hcache]
  cases fetch_info_cached kvs now kmin username with
  | some d => rfl
  | none => cases hcopy : oracle.show_user_is_copy <;> simp

/-- Concrete instantiation of C10_flush_then_fetch_observes_old_snapshot. -/
theorem C10_flush_then_fetch_observes_old_snapshot_witness :
    pyLower "JohnDoe" ≠ "JohnDoe" ∧
      ((fetch_info (flush_cache [("johndoe", PermDoc.mk 500 (some 200) 300 0 false false false 0)] "JohnDoe")
          100 1000 (RedditOracle.mk true 1 1 1 0 false false false) "JohnDoe").1
        = (fetch_info [("johndoe", PermDoc.mk 500 (some 200) 300 0 false false false 0)]
          100 1000 (RedditOracle.mk true 1 1 1 0 false false false) "JohnDoe").1 ∧
      kvsRead (flush_cache [("johndoe", PermDoc.mk 500 (some 200) 300 0 false false false 0)] "JohnDoe")
          (pyLower "JohnDoe")
        = kvsRead [("johndoe", PermDoc.mk 500 (some 200) 300 0 false false false 0)]
          (pyLower "JohnDoe")) :=
  ⟨by decide,
    C10_flush_then_fetch_observes_old_snapshot
      [("johndoe", PermDoc.mk 500 (some 200) 300 0 false false false 0)]
      100 1000 (RedditOracle.mk true 1 1 1 0 false false false) "JohnDoe" (by decide)⟩

/-- C8: can_interact returns false for ignored users and nonexistent accounts,
and otherwise returns true iff the user is not banned and is a moderator, an
approved submitter, or passes all three strict threshold tests. -/
theorem C8_can_interact_matches_spec (cfg : PermConfig) (username : String)
    (info : Option PermDoc) (now : ℚ) :
    can_interact cfg username info now = can_interact_spec cfg username info now := by
  unfold can_interact can_interact_spec
  split
  · rfl
  · cases info with
    | none => rfl
    | some i =>
        simp [Bool.or_assoc, Bool.and_assoc]

/-! ## Theorems for C1, C2 and C3 -/

lemma find_or_create_currency_moneys (st : LedgerState) (c s : String) (b : Bool) (e : ℕ) :
    (find_or_create_currency st c s b e).2.moneys = st.moneys := by
  unfold find_or_create_currency
  cases st.currencies.find? (fun p => p.2.code = c) <;> rfl

lemma find_or_create_currency_events (st : LedgerState) (c s : String) (b : Bool) (e : ℕ) :
    (find_or_create_currency st c s b e).2.loan_repayment_events
      = st.loan_repayment_events := by
  unfold find_or_create_currency
  cases st.currencies.find? (fun p => p.2.code = c) <;> rfl

lemma find_or_create_money_mem (st : LedgerState) (m : Money) (usd : ℤ) :
    ∃ cid, ((find_or_create_money st m usd).1, (⟨cid, m.minor, usd⟩ : MoneyRow))

        ∈ (find_or_create_money st m usd).2.moneys := by
  unfold find_or_create_money
  rcases hc : find_or_create_currency st m.currency
      (m.symbol.getD (" " ++ m.currency))
      (if m.symbol.isSome then m.symbol_on_left else false)
      (if m.exp = 0 then 2 else m.exp) with ⟨cid, st1⟩
  cases hf : st1.moneys.find? (fun p =>
      p.2.currency_id = cid ∧ p.2.amount = m.minor ∧ p.2.amount_usd_cents = usd) with
  | some p =>
      have hmem := List.mem_of_find?_eq_some hf
      have hpred := List.find?_some hf
      rw [decide_eq_true_eq] at hpred
      refine ⟨cid, ?_⟩
      simp only [hf]
      have hrow : p.2 = (⟨cid, m.minor, usd⟩ : MoneyRow) := by
        rcases hpred with ⟨h1, h2, h3⟩
        cases p2 : p.2
        rw [p2] at h1 h2 h3
        simp only at h1 h2 h3
        rw [h1, h2, h3]
      rw [← hrow]
      exact hmem
  | none =>
      refine ⟨cid, ?_⟩
      simp only [hf]
      simp

lemma find_or_create_money_moneys_mono (st : LedgerState) (m : Money) (usd : ℤ)
    (x : ℕ × MoneyRow) (h : x ∈ st.moneys) :
    x ∈ (find_or_create_money st m usd).2.moneys := by
  unfold find_or_create_money
  rcases hc : find_or_create_currency st m.currency
      (m.symbol.getD (" " ++ m.currency))
      (if m.symbol.isSome then m.symbol_on_left else false)
      (if m.exp = 0 then 2 else m.exp) with ⟨cid, st1⟩
  have hst1 : st1.moneys = st.moneys := by
    have := find_or_create_currency_moneys st m.currency
      (m.symbol.getD (" " ++ m.currency))
      (if m.symbol.isSome then m.symbol_on_left else false)
      (if m.exp = 0 then 2 else m.exp)
    rw [hc] at this
    exact this
  cases hf : st1.moneys.find? (fun p =>
      p.2.currency_id = cid ∧ p.2.amount = m.minor ∧ p.2.amount_usd_cents = usd) with
  | some p =>
      simp only [hf]
      rw [hst1]
      exact h
  | none =>
      simp only [hf]
      exact List.mem_append_left _ (hst1 ▸ h)

lemma find_or_create_money_events (st : LedgerState) (m : Money) (usd : ℤ) :
    (find_or_create_money st m usd).2.loan_repayment_events
      = st.loan_repayment_events := by
  unfold find_or_create_money
  rcases hc : find_or_create_currency st m.currency
      (m.symbol.getD (" " ++ m.currency))
      (if m.symbol.isSome then m.symbol_on_left else false)
      (if m.exp = 0 then 2 else m.exp) with ⟨cid, st1⟩
  have hst1 : st1.loan_repayment_events = st.loan_repayment_events := by
    have := find_or_create_currency_events st m.currency
      (m.symbol.getD (" " ++ m.currency))
      (if m.symbol.isSome then m.symbol_on_left else false)
      (if m.exp = 0 then 2 else m.exp)
    rw [hc] at this
    exact this
  cases hf : st1.moneys.find? (fun p =>
      p.2.currency_id = cid ∧ p.2.amount = m.minor ∧ p.2.amount_usd_cents = usd) with
  | some p =>
      simp only [hf]
      exact hst1
  | none =>
      simp only [hf]
      exact hst1

lemma insertRepaymentEvent_mem (st : LedgerState) (loan_id money_id : ℕ) :
    ((insertRepaymentEvent st loan_id money_id).1, loan_id, money_id)
      ∈ (insertRepaymentEvent st loan_id money_id).2.loan_repayment_events := by
  simp [insertRepaymentEvent]

lemma insertRepaymentEvent_moneys (st : LedgerState) (a b : ℕ) :
    (insertRepaymentEvent st a b).2.moneys = st.moneys := rfl

set_option maxHeartbeats 1000000 in
lemma applyRepaymentWrites_events (st : LedgerState) (loan_id : ℕ) (r : FetchedLoan)
    (amount applied : Money) (usd namt nusd : ℤ) :
    (applyRepaymentWrites st loan_id r amount applied usd namt nusd).2.loan_repayment_events
      = (insertRepaymentEvent (find_or_create_money st applied usd).2 loan_id
          (find_or_create_money st applied usd).1).2.loan_repayment_events := by
  unfold applyRepaymentWrites
  dsimp only
  split
  · split
    · exact find_or_create_money_events _ _ _
    · exact find_or_create_money_events _ _ _
  · exact find_or_create_money_events _ _ _

set_option maxHeartbeats 1000000 in
lemma applyRepaymentWrites_moneys (st : LedgerState) (loan_id : ℕ) (r : FetchedLoan)
    (amount applied : Money) (usd namt nusd : ℤ) :
    (applyRepaymentWrites st loan_id r amount applied usd namt nusd).2.moneys
      = (find_or_create_money
          (insertRepaymentEvent (find_or_create_money st applied usd).2 loan_id
            (find_or_create_money st applied usd).1).2
          ⟨namt, r.loan_currency, r.loan_currency_exp,
            some r.loan_currency_symbol, r.loan_currency_symbol_on_left⟩ nusd).2.moneys := by
  unfold applyRepaymentWrites
  dsimp only
  split
  · split
    · rfl
    · rfl
  · rfl

lemma applyRepaymentWrites_spec (st : LedgerState) (loan_id : ℕ) (r : FetchedLoan)
    (amount applied : Money) (usd namt nusd : ℤ) :
    ∃ mid row,
      ((applyRepaymentWrites st loan_id r amount applied usd namt nusd).1, loan_id, mid)
          ∈ (applyRepaymentWrites st loan_id r amount applied usd namt nusd).2.loan_repayment_events ∧
        (mid, row) ∈ (applyRepaymentWrites st loan_id r amount applied usd namt nusd).2.moneys ∧
        row.amount = applied.minor ∧ row.amount_usd_cents = usd := by
  obtain ⟨cid, hmem⟩ := find_or_create_money_mem st applied usd
  refine ⟨(find_or_create_money st applied usd).1, ⟨cid, applied.minor, usd⟩, ?_, ?_, rfl, rfl⟩
  · have hfst : (applyRepaymentWrites st loan_id r amount applied usd namt nusd).1
        = (insertRepaymentEvent (find_or_create_money st applied usd).2 loan_id
            (find_or_create_money st applied usd).1).1 := rfl
    rw [hfst, applyRepaymentWrites_events]
    exact insertRepaymentEvent_mem _ _ _
  · rw [applyRepaymentWrites_moneys]
    apply find_or_create_money_moneys_mono
    rw [insertRepaymentEvent_moneys]
    exact hmem

lemma apply_repayment_ok_elim
    (rates : String → String → ℚ) (st : LedgerState) (loan_id : ℕ) (amount : Money)
    (r : FetchedLoan) (ev : ℕ) (applied remaining : Money) (st2 : LedgerState)
    (hfetch : fetchLoanJoin st loan_id = some r)
    (h : apply_repayment rates st loan_id amount = (.ok (ev, applied, remaining), st2)) :
    0 < amount.minor ∧
    r.principal_usd_cents ≠ 0 ∧
    r.principal_repayment_amount ≠ r.principal_amount ∧
    applied.currency = r.loan_currency ∧
    ((r.loan_currency = amount.currency ∧
        applied.minor = min (r.principal_amount - r.principal_repayment_amount) amount.minor ∧
        remaining.currency = r.loan_currency ∧
        remaining.minor = amount.minor - applied.minor) ∨
      (¬ r.loan_currency = amount.currency ∧
        ∃ rg, convertRate rates amount.currency r.loan_currency = some rg ∧
          applied.minor = min (r.principal_amount - r.principal_repayment_amount)
            (pyCeil ((amount.minor : ℚ) * rg)) ∧
          remaining.currency = amount.currency ∧
          remaining.minor = max 0 (amount.minor - pyCeil ((applied.minor : ℚ) / rg)))) ∧
    (∃ mid row, (ev, loan_id, mid) ∈ st2.loan_repayment_events ∧
      (mid, row) ∈ st2.moneys ∧ row.amount = applied.minor ∧
      row.amount_usd_cents = pyCeil ((applied.minor : ℚ) /
        ((r.principal_amount : ℚ) / (r.principal_usd_cents : ℚ)))) := by
  unfold apply_repayment at h
  by_cases h0 : amount.minor ≤ 0
  · rw [if_pos h0] at h
    exact absurd (congrArg Prod.fst h) (by simp)
  simp only [if_neg h0, hfetch] at h
  by_cases husd : r.principal_usd_cents = 0
  · rw [if_pos husd] at h
    exact absurd (congrArg Prod.fst h) (by simp)
  simp only [if_neg husd] at h
  by_cases hrepd : r.principal_amount = r.principal_repayment_amount
  · rw [if_pos hrepd] at h
    exact absurd (congrArg Prod.fst h) (by simp)
  simp only [if_neg hrepd] at h
  by_cases hcur : r.loan_currency = amount.currency
  · simp only [if_pos hcur] at h
    have h1 := congrArg Prod.fst h
    have hst := congrArg Prod.snd h
    simp only at h1 hst
    have hA := Except.ok.inj h1
    have hev := congrArg (fun t => t.1) hA
    have happ := congrArg (fun t => t.2.1) hA
    have hrem := congrArg (fun t => t.2.2) hA
    simp only at hev happ hrem
    refine ⟨by omega, husd, fun e => hrepd e.symm, by rw [← happ], ?_, ?_⟩
    · exact Or.inl ⟨hcur, by rw [← happ], by rw [← hrem], by rw [← hrem, ← happ]⟩
    · obtain ⟨mid, row, hm1, hm2, hm3, hm4⟩ :=
        applyRepaymentWrites_spec st loan_id r amount
          ⟨min (r.principal_amount - r.principal_repayment_amount) amount.minor,
            r.loan_currency, r.loan_currency_exp, some r.loan_currency_symbol,
            r.loan_currency_symbol_on_left⟩
          (pyCeil (((min (r.principal_amount - r.principal_repayment_amount) amount.minor : ℤ) : ℚ) /
            ((r.principal_amount : ℚ) / (r.principal_usd_cents : ℚ))))
          (r.principal_repayment_amount +
            min (r.principal_amount - r.principal_repayment_amount) amount.minor)
          (pyCeil (((r.principal_repayment_amount +
            min (r.principal_amount - r.principal_repayment_amount) amount.minor : ℤ) : ℚ) /
            ((r.principal_amount : ℚ) / (r.principal_usd_cents : ℚ))))
      refine ⟨mid, row, ?_, ?_, ?_, ?_⟩
      · rw [← hev, ← hst]
        exact hm1
      · rw [← hst]
        exact hm2
      · rw [← happ]
        exact hm3
      · rw [← happ]
        exact hm4
  · simp only [if_neg hcur] at h
    cases hconv : convertRate rates amount.currency r.loan_currency with
    | none =>
        rw [hconv] at h
        exact absurd (congrArg Prod.fst h) (by simp)
    | some rg =>
        simp only [hconv] at h
        have h1 := congrArg Prod.fst h
        have hst := congrArg Prod.snd h
        simp only at h1 hst
        have hA := Except.ok.inj h1
        have hev := congrArg (fun t => t.1) hA
        have happ := congrArg (fun t => t.2.1) hA
        have hrem := congrArg (fun t => t.2.2) hA
        simp only at hev happ hrem
        refine ⟨by omega, husd, fun e => hrepd e.symm, by rw [← happ], ?_, ?_⟩
        · exact Or.inr ⟨hcur, rg, rfl,
            by rw [← happ], by rw [← hrem], by rw [← hrem, ← happ]⟩
        · obtain ⟨mid, row, hm1, hm2, hm3, hm4⟩ :=
            applyRepaymentWrites_spec st loan_id r amount
              ⟨min (r.principal_amount - r.principal_repayment_amount)
                  (pyCeil ((amount.minor : ℚ) * rg)),
                r.loan_currency, r.loan_currency_exp, some r.loan_currency_symbol,
                r.loan_currency_symbol_on_left⟩
              (pyCeil (((min (r.principal_amount - r.principal_repayment_amount)
                  (pyCeil ((amount.minor : ℚ) * rg)) : ℤ) : ℚ) /
                ((r.principal_amount : ℚ) / (r.principal_usd_cents : ℚ))))
              (r.principal_repayment_amount +
                min (r.principal_amount - r.principal_repayment_amount)
                  (pyCeil ((amount.minor : ℚ) * rg)))
              (pyCeil (((r.principal_repayment_amount +
                min (r.principal_amount - r.principal_repayment_amount)
                  (pyCeil ((amount.minor : ℚ) * rg)) : ℤ) : ℚ) /
                ((r.principal_amount : ℚ) / (r.principal_usd_cents : ℚ))))
          refine ⟨mid, row, ?_, ?_, ?_, ?_⟩
          · rw [← hev, ← hst]
            exact hm1
          · rw [← hst]
            exact hm2
          · rw [← happ]
            exact hm3
          · rw [← happ]
            exact hm4

/-- C1: for a successful apply_repayment on an existing, not-fully-repaid
loan with a positive amount: the applied money is min(remaining principal,
amount in the loan currency) where a cross-currency amount is
ceil(amount.minor * convert(amount.currency, loan.currency)); the applied
USD value recorded on the repayment-event money row is
ceil(applied.minor / rate_loan_to_usd) with the rate frozen as
principal.amount / principal.amount_usd; remaining is amount - applied in
the loan currency when currencies match, else
max(0, amount.minor - ceil(applied.minor / rate_given_to_loan)) in the
given currency. -/
theorem C1_apply_repayment_amounts
    (rates : String → String → ℚ) (st : LedgerState) (loan_id : ℕ) (amount : Money)
    (r : FetchedLoan) (ev : ℕ) (applied remaining : Money) (st2 : LedgerState)
    (hfetch : fetchLoanJoin st loan_id = some r)
    (hok : apply_repayment rates st loan_id amount = (.ok (ev, applied, remaining), st2)) :
    applied.currency = r.loan_currency ∧
    (r.loan_currency = amount.currency →
      applied.minor = min (r.principal_amount - r.principal_repayment_amount) amount.minor ∧
      remaining.currency = r.loan_currency ∧
      remaining.minor = amount.minor - applied.minor) ∧
    (r.loan_currency ≠ amount.currency →
      ∃ rg, convertRate rates amount.currency r.loan_currency = some rg ∧
        applied.minor = min (r.principal_amount - r.principal_repayment_amount)
          (pyCeil ((amount.minor : ℚ) * rg)) ∧
        remaining.currency = amount.currency ∧
        remaining.minor = max 0 (amount.minor - pyCeil ((applied.minor : ℚ) / rg))) ∧
    (∃ mid row, (ev, loan_id, mid) ∈ st2.loan_repayment_events ∧
      (mid, row) ∈ st2.moneys ∧ row.amount = applied.minor ∧
      row.amount_usd_cents = pyCeil ((applied.minor : ℚ) /
        ((r.principal_amount : ℚ) / (r.principal_usd_cents : ℚ)))) := by
  obtain ⟨hpos, husd, hrep, hcur, hdisj, hmem⟩ :=
    apply_repayment_ok_elim rates st loan_id amount r ev applied remaining st2 hfetch hok
  refine ⟨hcur, ?_, ?_, hmem⟩
  · intro hc
    rcases hdisj with ⟨_, h⟩ | ⟨hne, _⟩
    · exact h
    · exact absurd hc hne
  · intro hc
    rcases hdisj with ⟨heq, _⟩ | ⟨_, h⟩
    · exact absurd heq hc
    · exact h

lemma convertRate_pos (rates : String → String → ℚ) (h : ∀ a b, 0 < rates a b)
    (s t : String) (q : ℚ) (hq : convertRate rates s t = some q) : 0 < q := by
  unfold convertRate at hq
  cases hs : isoExpOf s with
  | none =>
      rw [hs] at hq
      exact Option.noConfusion hq
  | some es =>
      cases ht : isoExpOf t with
      | none =>
          simp only [hs, ht] at hq
          exact Option.noConfusion hq
      | some et =>
          simp only [hs, ht] at hq
          have hq2 := Option.some.inj hq
          rw [← hq2]
          by_cases hst : s = t
          · rw [if_pos hst]
            norm_num
          · rw [if_neg hst]
            exact mul_pos (h s t) (zpow_pos (by norm_num) _)

/-- C3: a successful apply_repayment on a loan with
0 ≤ principal_repaid < principal and positive FX rates records an applied
money in the loan's currency with 0 < applied.minor ≤ principal - prior
repaid, so the updated running total never exceeds the principal. -/
theorem C3_repayment_event_bounds
    (rates : String → String → ℚ) (st : LedgerState) (loan_id : ℕ) (amount : Money)
    (r : FetchedLoan) (ev : ℕ) (applied remaining : Money) (st2 : LedgerState)
    (hfetch : fetchLoanJoin st loan_id = some r)
    (hrates : ∀ a b, 0 < rates a b)
    (_hle : 0 ≤ r.principal_repayment_amount)
    (hlt : r.principal_repayment_amount < r.principal_amount)
    (hok : apply_repayment rates st loan_id amount = (.ok (ev, applied, remaining), st2)) :
    applied.currency = r.loan_currency ∧
    0 < applied.minor ∧
    applied.minor ≤ r.principal_amount - r.principal_repayment_amount ∧
    r.principal_repayment_amount + applied.minor ≤ r.principal_amount := by
  obtain ⟨hpos, husd, hrep, hcur, hdisj, hmem⟩ :=
    apply_repayment_ok_elim rates st loan_id amount r ev applied remaining st2 hfetch hok
  have hbounds : 0 < applied.minor ∧
      applied.minor ≤ r.principal_amount - r.principal_repayment_amount := by
    rcases hdisj with ⟨_, hmin, _, _⟩ | ⟨_, rg, hrg, hmin, _, _⟩
    · rw [hmin]
      constructor
      · exact lt_min (by omega) hpos
      · exact min_le_left _ _
    · rw [hmin]
      have hrgpos : 0 < rg := convertRate_pos rates hrates _ _ rg hrg
      have hcpos : 0 < pyCeil ((amount.minor : ℚ) * rg) := by
        unfold pyCeil
        rw [Int.ceil_pos]
        exact mul_pos (by exact_mod_cast hpos) hrgpos
      constructor
      · exact lt_min (by omega) hcpos
      · exact min_le_left _ _
  exact ⟨hcur, hbounds.1, hbounds.2, by omega⟩

/-- C2 counterexample: an existing, not-fully-repaid loan with a positive
amount on which apply_repayment still raises, because the stored principal
USD amount is zero and the frozen-rate computation at line 120 divides by
zero before the already-repaid check. -/
theorem C2_counterexample :
    (apply_repayment ratesOne zeroUsdState 6 (Money.mk 50 "USD" 2 none false)).1
        = Except.error ApplyError.zeroUsdRate ∧
      0 < (Money.mk 50 "USD" 2 none false).minor ∧
      (∃ r, fetchLoanJoin zeroUsdState 6 = some r ∧
        r.principal_repayment_amount ≠ r.principal_amount) :=
  ⟨rfl, by decide,
    ⟨⟨1, "lender1", 2, "borrower1", 3, "USD", 2, "$", true, 100, 0, 5, 0, none⟩,
      rfl, by decide⟩⟩

/-- C2 (amended): apply_repayment raises iff the amount is nonpositive, the
loan (or one of its joined rows) does not exist, the stored principal USD
amount is zero (float division by zero computing the frozen rate), the loan
is already fully repaid, or the currencies differ and one of them is not a
supported ISO code (convert raises); and in every raising case no write is
performed (the state is returned unchanged). -/
theorem C2_raise_characterization
    (rates : String → String → ℚ) (st : LedgerState) (loan_id : ℕ) (amount : Money) :
    ((∃ e, (apply_repayment rates st loan_id amount).1 = Except.error e) ↔
      (amount.minor ≤ 0 ∨ fetchLoanJoin st loan_id = none ∨
        ∃ r, fetchLoanJoin st loan_id = some r ∧
          (r.principal_usd_cents = 0 ∨
            r.principal_amount = r.principal_repayment_amount ∨
            (¬ r.loan_currency = amount.currency ∧
              convertRate rates amount.currency r.loan_currency = none)))) ∧
    (∀ e, (apply_repayment rates st loan_id amount).1 = Except.error e →
      (apply_repayment rates st loan_id amount).2 = st) := by
  rcases hres : apply_repayment rates st loan_id amount with ⟨res, st2⟩
  unfold apply_repayment at hres
  by_cases h0 : amount.minor ≤ 0
  · rw [if_pos h0] at hres
    have h1 := congrArg Prod.fst hres
    have h2 := congrArg Prod.snd hres
    simp only at h1 h2
    refine ⟨⟨fun _ => Or.inl h0, fun _ => ⟨.nonpositiveAmount, h1.symm⟩⟩, fun e he => h2.symm⟩
  rw [if_neg h0] at hres
  cases hfetch : fetchLoanJoin st loan_id with
  | none =>
      rw [hfetch] at hres
      have h1 := congrArg Prod.fst hres
      have h2 := congrArg Prod.snd hres
      simp only at h1 h2
      refine ⟨⟨fun _ => Or.inr (Or.inl rfl), fun _ => ⟨.loanNotFound, h1.symm⟩⟩,
        fun e he => h2.symm⟩
  | some r =>
      simp only [hfetch] at hres
      by_cases husd : r.principal_usd_cents = 0
      · rw [if_pos husd] at hres
        have h1 := congrArg Prod.fst hres
        have h2 := congrArg Prod.snd hres
        simp only at h1 h2
        refine ⟨⟨fun _ => Or.inr (Or.inr ⟨r, rfl, Or.inl husd⟩),
          fun _ => ⟨.zeroUsdRate, h1.symm⟩⟩, fun e he => h2.symm⟩
      simp only [if_neg husd] at hres
      by_cases hrepd : r.principal_amount = r.principal_repayment_amount
      · rw [if_pos hrepd] at hres
        have h1 := congrArg Prod.fst hres
        have h2 := congrArg Prod.snd hres
        simp only at h1 h2
        refine ⟨⟨fun _ => Or.inr (Or.inr ⟨r, rfl, Or.inr (Or.inl hrepd)⟩),
          fun _ => ⟨.alreadyRepaid, h1.symm⟩⟩, fun e he => h2.symm⟩
      simp only [if_neg hrepd] at hres
      by_cases hcur : r.loan_currency = amount.currency
      · simp only [if_pos hcur] at hres
        have h1 := congrArg Prod.fst hres
        simp only at h1
        constructor
        · constructor
          · intro ⟨e, he⟩
            rw [← h1] at he
            exact Except.noConfusion he
          · intro hcond
            rcases hcond with hc | hc | ⟨r2, hr2, hc⟩
            · exact absurd hc h0
            · exact Option.noConfusion hc
            · have : r2 = r := (Option.some.inj hr2).symm
              subst this
              rcases hc with hc | hc | ⟨hne, _⟩
              · exact absurd hc husd
              · exact absurd hc hrepd
              · exact absurd hcur hne
        · intro e he
          rw [← h1] at he
          exact Except.noConfusion he
      · simp only [if_neg hcur] at hres
        cases hconv : convertRate rates amount.currency r.loan_currency with
        | none =>
            rw [hconv] at hres
            have h1 := congrArg Prod.fst hres
            have h2 := congrArg Prod.snd hres
            simp only at h1 h2
            refine ⟨⟨fun _ => Or.inr (Or.inr ⟨r, rfl, Or.inr (Or.inr ⟨hcur, hconv⟩)⟩),
              fun _ => ⟨.unknownCurrency, h1.symm⟩⟩, fun e he => h2.symm⟩
        | some rg =>
            simp only [hconv] at hres
            have h1 := congrArg Prod.fst hres
            simp only at h1
            constructor
            · constructor
              · intro ⟨e, he⟩
                rw [← h1] at he
                exact Except.noConfusion he
              · intro hcond
                rcases hcond with hc | hc | ⟨r2, hr2, hc⟩
                · exact absurd hc h0
                · exact Option.noConfusion hc
                · have : r2 = r := (Option.some.inj hr2).symm
                  subst this
                  rcases hc with hc | hc | ⟨_, hc⟩
                  · exact absurd hc husd
                  · exact absurd hc hrepd
                  · rw [hconv] at hc
                    exact Option.noConfusion hc
            · intro e he
              rw [← h1] at he
              exact Except.noConfusion he

/-- Concrete instantiation of C1_apply_repayment_amounts on a 3 USD repayment
toward an open 10 USD loan. -/
theorem C1_apply_repayment_amounts_witness :
    wApplied.currency = wFetched.loan_currency ∧
    (wFetched.loan_currency = wAmount.currency →
      wApplied.minor = min (wFetched.principal_amount - wFetched.principal_repayment_amount)
          wAmount.minor ∧
      wRemaining.currency = wFetched.loan_currency ∧
      wRemaining.minor = wAmount.minor - wApplied.minor) ∧
    (wFetched.loan_currency ≠ wAmount.currency →
      ∃ rg, convertRate ratesOne wAmount.currency wFetched.loan_currency = some rg ∧
        wApplied.minor = min (wFetched.principal_amount - wFetched.principal_repayment_amount)
          (pyCeil ((wAmount.minor : ℚ) * rg)) ∧
        wRemaining.currency = wAmount.currency ∧
        wRemaining.minor = max 0 (wAmount.minor - pyCeil ((wApplied.minor : ℚ) / rg))) ∧
    (∃ mid row, (8, 6, mid) ∈ wState2.loan_repayment_events ∧
      (mid, row) ∈ wState2.moneys ∧ row.amount = wApplied.minor ∧
      row.amount_usd_cents = pyCeil ((wApplied.minor : ℚ) /
        ((wFetched.principal_amount : ℚ) / (wFetched.principal_usd_cents : ℚ)))) :=
  C1_apply_repayment_amounts ratesOne usdLoanState 6 wAmount wFetched 8 wApplied wRemaining
    wState2 (by decide)
    (by norm_num [apply_repayment, fetchLoanJoin, lookupRow, usdLoanState, ratesOne,
      applyRepaymentWrites, find_or_create_money, find_or_create_currency,
      insertRepaymentEvent, updateLoanRow, pyCeil, List.find?, wAmount, wApplied,
      wRemaining, wState2, wFetched])

/-- Concrete instantiation of C3_repayment_event_bounds on the same scenario. -/
theorem C3_repayment_event_bounds_witness :
    wApplied.currency = wFetched.loan_currency ∧
    0 < wApplied.minor ∧
    wApplied.minor ≤ wFetched.principal_amount - wFetched.principal_repayment_amount ∧
    wFetched.principal_repayment_amount + wApplied.minor ≤ wFetched.principal_amount :=
  C3_repayment_event_bounds ratesOne usdLoanState 6 wAmount wFetched 8 wApplied wRemaining
    wState2 (by decide) (fun a b => by norm_num [ratesOne]) (by decide) (by decide)
    (by norm_num [apply_repayment, fetchLoanJoin, lookupRow, usdLoanState, ratesOne,
      applyRepaymentWrites, find_or_create_money, find_or_create_currency,
      insertRepaymentEvent, updateLoanRow, pyCeil, List.find?, wAmount, wApplied,
      wRemaining, wState2, wFetched])

/-- Concrete instantiation of C2_raise_characterization at the zero-USD
state. -/
theorem C2_raise_characterization_witness :
    ((∃ e, (apply_repayment ratesOne zeroUsdState 6 (Money.mk 50 "USD" 2 none false)).1
        = Except.error e) ↔
      ((Money.mk 50 "USD" 2 none false).minor ≤ 0 ∨
        fetchLoanJoin zeroUsdState 6 = none ∨
        ∃ r, fetchLoanJoin zeroUsdState 6 = some r ∧
          (r.principal_usd_cents = 0 ∨
            r.principal_amount = r.principal_repayment_amount ∨
            (¬ r.loan_currency = (Money.mk 50 "USD" 2 none false).currency ∧
              convertRate ratesOne (Money.mk 50 "USD" 2 none false).currency
                r.loan_currency = none)))) ∧
    (∀ e, (apply_repayment ratesOne zeroUsdState 6 (Money.mk 50 "USD" 2 none false)).1
        = Except.error e →
      (apply_repayment ratesOne zeroUsdState 6 (Money.mk 50 "USD" 2 none false)).2
        = zeroUsdState) :=
  C2_raise_characterization ratesOne zeroUsdState 6 (Money.mk 50 "USD" 2 none false)

/-! ## Theorems for C4 and C5 -/

/-- C4: every handling of a parseable loan comment fails with a
parameter-count mismatch on the zero principal-repaid moneys INSERT (3
columns, 4 placeholders, 3 bound arguments in the source), so no loan row is
ever committed; and the handler contains no publish at all, so no
loans.create event is emitted even though new_lender, lender_loan and
flair_loan_threads_completed all subscribe to it.  Evaluated at the failing
input: the comment body dollar-loan dollar-100. -/
theorem C4_loan_summon_crashes :
    loan_handle_comment ratesOne emptyLedgerState loanComment
        = Except.error (LoanSummonError.arityMismatch "moneys") ∧
      parse loanParserDef loanComment.body
        = some [some (TokVal.money (Money.mk 10000 "USD" 2 none false)), none] :=
  ⟨rfl, by decide⟩

/-- C5 counterexample: a cross-currency confirm where the code selects the
loan although the loan's stored USD is 2500 cents away from the confirming
USD-equivalent, because the query compares the native principal minor amount
one-sidedly against usd_amount.minor + 100 instead of the stored USD within
100. -/
theorem C5_counterexample :
    confirm_select ratesOne [gbpLoanRow] confirmAmt "Lender1" "Borrower1" = some gbpLoanRow ∧
      confirm_select_claim ratesOne [gbpLoanRow] confirmAmt "Lender1" "Borrower1" = none ∧
      (gbpLoanRow.principal_usd_cents - confirmAmt.minor > 100 ∨
        confirmAmt.minor - gbpLoanRow.principal_usd_cents > 100) :=
  ⟨by decide, by decide, by decide⟩

lemma selectNewest_none (l : List ConfirmLoanRow) (h : selectNewest l = none) :
    l = [] := by
  cases l with
  | nil => rfl
  | cons a t =>
      unfold selectNewest at h
      cases hs : selectNewest t with
      | none =>
          rw [hs] at h
          have h2 : some a = none := h
          exact Option.noConfusion h2
      | some b =>
          rw [hs] at h
          have h2 : (if a.created_at < b.created_at then some b else some a) = none := h
          by_cases hab : a.created_at < b.created_at
          · rw [if_pos hab] at h2
            exact Option.noConfusion h2
          · rw [if_neg hab] at h2
            exact Option.noConfusion h2

lemma selectNewest_some (l : List ConfirmLoanRow) (r : ConfirmLoanRow)
    (h : selectNewest l = some r) :
    r ∈ l ∧ ∀ x ∈ l, x.created_at ≤ r.created_at := by
  induction l generalizing r with
  | nil => exact Option.noConfusion h
  | cons a t ih =>
      unfold selectNewest at h
      cases hs : selectNewest t with
      | none =>
          rw [hs] at h
          have h2 : some a = some r := h
          have ha := Option.some.inj h2
          subst ha
          have hte : t = [] := selectNewest_none t hs
          subst hte
          constructor
          · exact List.mem_cons_self a []
          · intro x hx
            rcases List.mem_cons.mp hx with hx | hx
            · subst hx
              exact le_refl _
            · cases hx
      | some b =>
          rw [hs] at h
          have h2 : (if a.created_at < b.created_at then some b else some a) = some r := h
          obtain ⟨hbmem, hbmax⟩ := ih b hs
          by_cases hab : a.created_at < b.created_at
          · rw [if_pos hab] at h2
            have hb := Option.some.inj h2
            subst hb
            refine ⟨List.mem_cons_of_mem _ hbmem, ?_⟩
            intro x hx
            rcases List.mem_cons.mp hx with hx | hx
            · subst hx
              exact le_of_lt hab
            · exact hbmax x hx
          · rw [if_neg hab] at h2
            have hb := Option.some.inj h2
            subst hb
            refine ⟨List.mem_cons_self _ _, ?_⟩
            intro x hx
            rcases List.mem_cons.mp hx with hx | hx
            · subst hx
              exact le_refl _
            · exact le_trans (hbmax x hx) (le_of_not_lt hab)

/-- C5 (amended): the loan the confirm summon selects is the most recent row
satisfying the query's predicate — lender and borrower match after
lowercasing, zero recorded principal repayment (so partially repaid loans are
excluded even though not repaid), null unpaid_at and deleted_at, and a
principal that either matches the amount exactly in its native currency or,
when the currencies differ, has native minor amount at most
usd_amount.minor + 100 where usd_amount is the floored USD-equivalent of the
confirming amount; when no row satisfies the predicate (and only then) the
no-match template is posted. -/
theorem C5_confirm_selection_characterized
    (rates : String → String → ℚ) (rows : List ConfirmLoanRow) (amt : Money)
    (lender borrower : String) (usd : Money)
    (husd : confirm_usd_amount rates amt = some usd) :
    (∀ row, confirm_select rates rows amt lender borrower = some row →
      row ∈ rows ∧ confirm_code_pred amt usd lender borrower row = true ∧
        ∀ r2 ∈ rows, confirm_code_pred amt usd lender borrower r2 = true →
          r2.created_at ≤ row.created_at) ∧
    (confirm_select rates rows amt lender borrower = none →
      ∀ r2 ∈ rows, confirm_code_pred amt usd lender borrower r2 = false) := by
  simp only [confirm_select, husd]
  constructor
  · intro row hrow
    obtain ⟨hmem, hmax⟩ := selectNewest_some _ _ hrow
    have hm := List.mem_filter.mp hmem
    refine ⟨hm.1, hm.2, ?_⟩
    intro r2 hr2 hp2
    exact hmax r2 (List.mem_filter.mpr ⟨hr2, hp2⟩)
  · intro hnone r2 hr2
    have hempty := selectNewest_none _ hnone
    cases hb : confirm_code_pred amt usd lender borrower r2 with
    | false => rfl
    | true =>
        have : r2 ∈ rows.filter (confirm_code_pred amt usd lender borrower) :=
          List.mem_filter.mpr ⟨hr2, hb⟩
        rw [hempty] at this
        cases this

/-- Concrete instantiation of C5_confirm_selection_characterized at the
cross-currency example row. -/
theorem C5_confirm_selection_characterized_witness :
    (∀ row, confirm_select ratesOne [gbpLoanRow] confirmAmt "Lender1" "Borrower1" = some row →
      row ∈ [gbpLoanRow] ∧
        confirm_code_pred confirmAmt confirmAmt "Lender1" "Borrower1" row = true ∧
        ∀ r2 ∈ [gbpLoanRow],
          confirm_code_pred confirmAmt confirmAmt "Lender1" "Borrower1" r2 = true →
          r2.created_at ≤ row.created_at) ∧
    (confirm_select ratesOne [gbpLoanRow] confirmAmt "Lender1" "Borrower1" = none →
      ∀ r2 ∈ [gbpLoanRow],
        confirm_code_pred confirmAmt confirmAmt "Lender1" "Borrower1" r2 = false) :=
  C5_confirm_selection_characterized ratesOne [gbpLoanRow] confirmAmt "Lender1" "Borrower1"
    confirmAmt (by decide)

end LoansBot
